import Mathlib

/-!
Shallow embedding of the Expense-AI receipt extraction pipeline
(`Backend/app/services/receipt_parser.py`) and of its deterministic policy
engine (`Backend/app/services/policy_engine.py` with the rule catalog from
`Backend/app/services/rule_summaries.py`).

Modelling conventions:
* Python strings are `String` / `List Char`; Python lists are `List`;
  Python dicts are insertion-ordered association lists.
* Python floats holding monetary amounts are modelled by `Dec`, an exact
  decimal number (integer mantissa with a power-of-ten scale).  Every float
  operation the source performs on amounts - parsing a decimal literal,
  addition, subtraction, absolute value, comparison, `max`, and `%.2f`
  formatting - is exact on such numbers, so the model is faithful up to the
  binary rounding error that the source itself never observes.  Where
  `float` is applied to arbitrary strings (the meal rule of the policy
  engine), it is modelled in full by `pyFloat`: surrounding whitespace,
  signs, underscores, exponents and the inf/infinity/nan literals.
* Confidence scores are modelled as `ℚ`; the constants the source uses
  (0.2, 0.3, ..., 0.95) are exact there.
* The regular expressions of the source are compiled by hand into
  character-list matchers (leftmost `re.search` semantics, word boundaries
  included); each matcher documents the pattern it implements.
-/

/-- Whitespace characters, as Python's `\s` and `str.strip` see them
(ASCII range). -/
def isSpaceCh (c : Char) : Bool :=
  c == ' ' || c == '\t' || c == '\n' || c == '\r' || c == '\x0b' || c == '\x0c'

def lowerL (l : List Char) : List Char := l.map Char.toLower

def lowerStr (s : String) : String := String.mk (lowerL s.toList)

/-- Needle-first prefix test on character lists. -/
def startsWithL : List Char → List Char → Bool
  | [], _ => true
  | _ :: _, [] => false
  | a :: ns, b :: hs => a == b && startsWithL ns hs

/-- Python's substring containment `needle in hay`. -/
def containsSub (needle : List Char) : List Char → Bool
  | [] => needle.isEmpty
  | c :: rest => startsWithL needle (c :: rest) || containsSub needle rest

def dropWS (l : List Char) : List Char := l.dropWhile isSpaceCh

/-- Python `str.strip`. -/
def stripWS (l : List Char) : List Char := dropWS ((dropWS l.reverse).reverse)

/-- Python `re.sub(r"\s+", " ", s)`: collapse each whitespace run to a single
space (the flag records whether the previous character was whitespace). -/
def collapseWSAux : Bool → List Char → List Char
  | _, [] => []
  | prevWS, c :: rest =>
    if isSpaceCh c then
      if prevWS then collapseWSAux true rest else ' ' :: collapseWSAux true rest
    else c :: collapseWSAux false rest

def collapseWS (l : List Char) : List Char := collapseWSAux false l

/-- Python `str.splitlines` restricted to the `\n`, `\r`, `\r\n` terminators
(a trailing terminator yields a final empty line here; the only caller
filters blank lines away, so this difference is unobservable). -/
def splitLinesAux (acc : List Char) : List Char → List (List Char)
  | [] => [acc.reverse]
  | '\r' :: '\n' :: rest => acc.reverse :: splitLinesAux [] rest
  | '\r' :: rest => acc.reverse :: splitLinesAux [] rest
  | '\n' :: rest => acc.reverse :: splitLinesAux [] rest
  | c :: rest => splitLinesAux (c :: acc) rest

def splitLines (s : String) : List String :=
  if s.toList.isEmpty then [] else (splitLinesAux [] s.toList).map String.mk

/-- Python `str.split()` with no separator: whitespace-delimited words,
empty words dropped. -/
def splitWSAux (cur : List Char) : List Char → List (List Char)
  | [] => if cur.isEmpty then [] else [cur.reverse]
  | c :: rest =>
    if isSpaceCh c then
      if cur.isEmpty then splitWSAux [] rest else cur.reverse :: splitWSAux [] rest
    else splitWSAux (c :: cur) rest

def splitWSStr (s : String) : List String := (splitWSAux [] s.toList).map String.mk

def digitCh : Nat → Char
  | 0 => '0'
  | 1 => '1'
  | 2 => '2'
  | 3 => '3'
  | 4 => '4'
  | 5 => '5'
  | 6 => '6'
  | 7 => '7'
  | 8 => '8'
  | 9 => '9'
  | _ => '0'

def natDigitsAux : Nat → Nat → List Char
  | 0, _ => []
  | fuel + 1, n => if n < 10 then [digitCh n] else natDigitsAux fuel (n / 10) ++ [digitCh (n % 10)]

/-- Decimal digit string of a natural number, most significant digit
first. -/
def natDigits (n : Nat) : List Char := natDigitsAux (n + 1) n

/-- Numeric value of a digit string, as Python `int`/`float` reads it. -/
def digitsToNat (cs : List Char) : Nat := cs.foldl (fun acc c => acc * 10 + (c.toNat - 48)) 0

def pow10 : Nat → Nat
  | 0 => 1
  | n + 1 => 10 * pow10 n

/-- Exact decimal number `m / 10 ^ e`: the model of a Python float holding a
monetary amount. -/
structure Dec where
  m : Int
  e : Nat
deriving DecidableEq

def Dec.addD (a b : Dec) : Dec := ⟨a.m * (pow10 b.e : Int) + b.m * (pow10 a.e : Int), a.e + b.e⟩

def Dec.subD (a b : Dec) : Dec := ⟨a.m * (pow10 b.e : Int) - b.m * (pow10 a.e : Int), a.e + b.e⟩

def Dec.absD (a : Dec) : Dec := ⟨(a.m.natAbs : Int), a.e⟩

/-- Value order on decimals: `a < b` iff `a.m / 10^a.e < b.m / 10^b.e`. -/
def Dec.ltB (a b : Dec) : Bool := a.m * (pow10 b.e : Int) < b.m * (pow10 a.e : Int)

/-- Python `max` step: keeps the left value on ties. -/
def Dec.maxD (a b : Dec) : Dec := if Dec.ltB a b then b else a

def Dec.ofNat (n : Nat) : Dec := ⟨(n : Int), 0⟩

/-- Rational value of a decimal. -/
def Dec.toQ (a : Dec) : ℚ := (a.m : ℚ) / (pow10 a.e : ℚ)

def twoDigits (r : Nat) : List Char := [digitCh (r / 10), digitCh (r % 10)]

/-- Cents count of `m / 10^e`, rounded half-up (all amounts the source
formats are exact multiples of a cent, so the tie rule is unobservable). -/
def roundCentsNat (m : Nat) (e : Nat) : Nat := (2 * (m * 100) + pow10 e) / (2 * pow10 e)

def fmtCents (c : Nat) : String := String.mk (natDigits (c / 100) ++ '.' :: twoDigits (c % 100))

/-- Python `f"{x:.2f}"` for the exact-decimal float model. -/
def Dec.format2 (a : Dec) : String :=
  if a.m < 0 then "-" ++ fmtCents (roundCentsNat a.m.natAbs a.e)
  else fmtCents (roundCentsNat a.m.toNat a.e)

/-- Python `float(s)` on an unsigned plain decimal literal: digits with at
most one dot and at least one digit.  This is the restriction of `float` to
the normalized amount strings of the total extractor; `pyFloat` below is the
full model of `float`, and the two agree on that domain
(`pyFloat_eq_parseDec_of_shape`). -/
def parseUnsignedDec (cs : List Char) : Option Dec :=
  if cs.all (fun c => c.isDigit || c == '.') && cs.any Char.isDigit
      && cs.countP (fun c => c == '.') ≤ 1 then
    let ip := cs.takeWhile (fun c => c != '.')
    let fp := (cs.dropWhile (fun c => c != '.')).drop 1
    some ⟨(digitsToNat (ip ++ fp) : Int), fp.length⟩
  else none

/-- Python `float(s)` on an optionally signed plain decimal literal; the
exact model of `float` on the amount strings the total extractor parses. -/
def parseDec (s : String) : Option Dec :=
  match s.toList with
  | '-' :: rest => (parseUnsignedDec rest).map (fun d => ⟨-d.m, d.e⟩)
  | '+' :: rest => parseUnsignedDec rest
  | cs => parseUnsignedDec cs

/-- A Python float as a value: a finite exact decimal, an infinity, or a
NaN (binary rounding and overflow thresholds are ignored, consistently with
the `Dec` model). -/
inductive PyFloat where
  | finite (d : Dec)
  | pinf
  | ninf
  | nan
deriving DecidableEq

/-- Python `v > n` on a float value: NaN compares false, `inf` true. -/
def PyFloat.gtNat (v : PyFloat) (n : Nat) : Bool :=
  match v with
  | finite d => Dec.ltB (Dec.ofNat n) d
  | pinf => true
  | ninf => false
  | nan => false

/-- The optional sign of a Python float literal. -/
def pySign : List Char → Bool × List Char
  | '-' :: rest => (true, rest)
  | '+' :: rest => (false, rest)
  | cs => (false, cs)

/-- Continuation of a Python `digitpart` after its first digit: further
digits with single underscores allowed only between digits.  An underscore
not followed by a digit is left unconsumed (so the surrounding parse fails
on the leftover input, as in Python). -/
def digitPartRest : List Char → List Char × List Char
  | [] => ([], [])
  | c :: rest =>
    if c.isDigit then
      let p := digitPartRest rest
      (c :: p.1, p.2)
    else if c = '_' then
      match rest with
      | [] => ([], c :: rest)
      | d :: rest2 =>
        if d.isDigit then
          let p := digitPartRest rest2
          (d :: p.1, p.2)
        else ([], c :: rest)
    else ([], c :: rest)

/-- Python `digitpart`: `digit (["_"] digit)*`.  Returns the digits with
underscores removed, and the remaining input. -/
def digitPart : List Char → Option (List Char × List Char)
  | c :: rest =>
    if c.isDigit then
      let p := digitPartRest rest
      some (c :: p.1, p.2)
    else none
  | [] => none

/-- Python float mantissa: `digitpart ["." [digitpart]] | "." digitpart`.
Returns integer digits, fraction digits, and the remaining input. -/
def pyMantissa (cs : List Char) : Option (List Char × List Char × List Char) :=
  match digitPart cs with
  | some (ip, rest) =>
    match rest with
    | '.' :: rest2 =>
      match digitPart rest2 with
      | some (fp, rest3) => some (ip, fp, rest3)
      | none => some (ip, [], rest2)
    | _ => some (ip, [], rest)
  | none =>
    match cs with
    | '.' :: rest2 =>
      match digitPart rest2 with
      | some (fp, rest3) => some ([], fp, rest3)
      | none => none
    | _ => none

/-- Python float exponent: `[("e"|"E") [sign] digitpart]`.  Returns the
signed exponent (0 when absent) and the remaining input; a malformed
exponent after `e` fails. -/
def pyExponent : List Char → Option (Int × List Char)
  | [] => some (0, [])
  | c :: rest =>
    if c = 'e' ∨ c = 'E' then
      match rest with
      | [] => none
      | sgn :: rest2 =>
        if sgn = '+' then
          match digitPart rest2 with
          | some (ds, r) => some ((digitsToNat ds : Int), r)
          | none => none
        else if sgn = '-' then
          match digitPart rest2 with
          | some (ds, r) => some (-(digitsToNat ds : Int), r)
          | none => none
        else
          match digitPart rest with
          | some (ds, r) => some ((digitsToNat ds : Int), r)
          | none => none
    else some (0, c :: rest)

/-- Exact decimal value of a parsed float: `±digits(ip ++ fp) * 10 ^ (exp -
|fp|)`. -/
def decOfParts (neg : Bool) (ip fp : List Char) (exp : Int) : Dec :=
  let digits : Int := (digitsToNat (ip ++ fp) : Int)
  let sdigits := if neg then -digits else digits
  let e := exp - (fp.length : Int)
  if 0 ≤ e then ⟨sdigits * (pow10 e.toNat : Int), 0⟩
  else ⟨sdigits, (-e).toNat⟩

/-- Python `float(s)` in full (ASCII range): optional surrounding
whitespace, optional sign, then either `inf`/`infinity`/`nan`
(case-insensitive) or a decimal mantissa with underscores allowed between
digits and an optional exponent.  The whole remaining input must be
consumed. -/
def pyFloat (s : String) : Option PyFloat :=
  let cs := stripWS s.toList
  let sp := pySign cs
  let neg := sp.1
  let low := lowerL sp.2
  if low = "inf".toList ∨ low = "infinity".toList then
    some (if neg then PyFloat.ninf else PyFloat.pinf)
  else if low = "nan".toList then
    some PyFloat.nan
  else
    match pyMantissa sp.2 with
    | some (ip, fp, rest) =>
      match pyExponent rest with
      | some (e, r) => if r = [] then some (PyFloat.finite (decOfParts neg ip fp e)) else none
      | none => none
    | none => none

/-- One OCR word, `{"text": ..., "conf": ...}`, with the confidence already a
number (the `isinstance` guard of `_avg_conf` holds by typing). -/
structure OcrWord where
  text : String
  conf : ℚ

def NOISE_PREFIXES : List String :=
  ["duplicate", "copy", "merchant copy", "customer copy",
   "thank you", "tax invoice", "invoice", "receipt"]

/-- Source `_clean_line`: strip, then collapse internal whitespace runs. -/
def cleanLine (s : String) : String := String.mk (collapseWS (stripWS s.toList))

/-- Source `_is_noise_line`. -/
def isNoiseLine (line : String) : Bool :=
  let low := lowerL line.toList
  if low.length < 3 then true
  else NOISE_PREFIXES.any (fun p => containsSub p.toList low)

/-- The matched confidences inside `_avg_conf`: confidences of OCR words
whose lowercased text is a lowercased nonempty token of the phrase and whose
confidence is nonnegative. -/
def matchedConfs (words : List OcrWord) (tokens : List String) : List ℚ :=
  let tokenSet := (tokens.filter (fun t => t != "")).map lowerStr
  (words.filter (fun w => tokenSet.contains (lowerStr w.text) && decide ((0 : ℚ) ≤ w.conf))).map
    (fun w => w.conf)

/-- Source `_avg_conf`. -/
def avgConf (words : List OcrWord) (tokens : List String) : ℚ :=
  if tokens.isEmpty then 0
  else
    let matched := matchedConfs words tokens
    if matched.isEmpty then 0.5
    else matched.sum / (matched.length : ℚ)

/-- Python `line.replace(",", ".")`. -/
def replaceCommas (l : List Char) : List Char := l.map (fun c => if c == ',' then '.' else c)

/-- Source `_normalize_amount`. -/
def normalizeAmount (s : String) : String :=
  if s == "" then ""
  else
    let cs := replaceCommas (stripWS s.toList)
    String.mk (cs.filter (fun c => c.isDigit || c == '.'))

/-- Python `\w`: letters, digits, underscore (ASCII range). -/
def isWordCh (c : Char) : Bool := c.isAlphanum || c == '_'

def boundaryBefore : Option Char → Bool
  | none => true
  | some c => !isWordCh c

def boundaryAfter : List Char → Bool
  | [] => true
  | c :: _ => !isWordCh c

def isDateSep (c : Char) : Bool := c == '.' || c == '/' || c == '-'

/-- Exactly `n` leading digits of `cs`, with the remainder. -/
def takeDigits : Nat → List Char → Option (List Char × List Char)
  | 0, cs => some ([], cs)
  | _ + 1, [] => none
  | n + 1, c :: rest =>
    if c.isDigit then (takeDigits n rest).map (fun p => (c :: p.1, p.2)) else none

/-- Matcher for `\d{4}\s*[-./]\s*\d{2}\s*[-./]\s*\d{2}` anchored at the
current position, with the trailing `\b` of the source pattern; returns the
matched text (whitespace included, as in the capture group). -/
def matchSpacedDateAt (cs : List Char) : Option (List Char) :=
  match takeDigits 4 cs with
  | none => none
  | some (y, r1) =>
    let wsA := r1.takeWhile isSpaceCh
    match r1.dropWhile isSpaceCh with
    | [] => none
    | s1 :: r2 =>
      if isDateSep s1 then
        let wsB := r2.takeWhile isSpaceCh
        match takeDigits 2 (r2.dropWhile isSpaceCh) with
        | none => none
        | some (mo, r3) =>
          let wsC := r3.takeWhile isSpaceCh
          match r3.dropWhile isSpaceCh with
          | [] => none
          | s2 :: r4 =>
            if isDateSep s2 then
              let wsD := r4.takeWhile isSpaceCh
              match takeDigits 2 (r4.dropWhile isSpaceCh) with
              | none => none
              | some (d, r5) =>
                if boundaryAfter r5 then
                  some (y ++ wsA ++ s1 :: (wsB ++ mo ++ wsC ++ s2 :: (wsD ++ d)))
                else none
            else none
      else none

/-- Matcher for `\d{4}[-./]\d{2}[-./]\d{2}` anchored at the current position,
with the trailing `\b`. -/
def matchDate1At (cs : List Char) : Option (List Char) :=
  match takeDigits 4 cs with
  | none => none
  | some (y, r1) =>
    match r1 with
    | [] => none
    | s1 :: r2 =>
      if isDateSep s1 then
        match takeDigits 2 r2 with
        | none => none
        | some (mo, r3) =>
          match r3 with
          | [] => none
          | s2 :: r4 =>
            if isDateSep s2 then
              match takeDigits 2 r4 with
              | none => none
              | some (d, r5) =>
                if boundaryAfter r5 then some (y ++ s1 :: (mo ++ s2 :: d)) else none
            else none
      else none

/-- Matcher for `\d{2}[-./]\d{2}[-./]\d{2,4}` anchored at the current
position, with the trailing `\b`: because of that boundary the greedy
`\d{2,4}` can only consume the whole maximal digit run, whose length must be
2 to 4. -/
def matchDate2At (cs : List Char) : Option (List Char) :=
  match takeDigits 2 cs with
  | none => none
  | some (d1, r1) =>
    match r1 with
    | [] => none
    | s1 :: r2 =>
      if isDateSep s1 then
        match takeDigits 2 r2 with
        | none => none
        | some (d2, r3) =>
          match r3 with
          | [] => none
          | s2 :: r4 =>
            if isDateSep s2 then
              let run := r4.takeWhile Char.isDigit
              let rest := r4.dropWhile Char.isDigit
              if 2 ≤ run.length && run.length ≤ 4 && boundaryAfter rest then
                some (d1 ++ s1 :: (d2 ++ s2 :: run))
              else none
            else none
      else none

/-- Python `re.search` for a pattern of the form `\b(...)`: try the matcher
at every position whose left context is a word boundary; the leftmost match
wins. -/
def regexScan (matchAt : List Char → Option (List Char)) : Option Char → List Char → Option (List Char)
  | _, [] => none
  | prev, c :: rest =>
    match (if boundaryBefore prev then matchAt (c :: rest) else none) with
    | some m => some m
    | none => regexScan matchAt (some c) rest

/-- Source `_find_date`; the loop over the two `DATE_REGEXES` patterns is
unrolled. -/
def findDate (text : String) : String × ℚ :=
  match regexScan matchSpacedDateAt none text.toList with
  | some m => (String.mk (m.filter (fun c => !isSpaceCh c)), 0.8)
  | none =>
    match regexScan matchDate1At none text.toList with
    | some m => (String.mk m, 0.75)
    | none =>
      match regexScan matchDate2At none text.toList with
      | some m => (String.mk m, 0.75)
      | none => ("", 0.3)

def CURRENCY_TOKENS : List String := ["EUR", "€", "USD", "$", "GBP", "£", "INR", "₹"]

/-- First match of the alternation `(EUR|€|USD|\$|GBP|£|INR|₹)`: leftmost
position wins, and at a position the first alternative that fits wins. -/
def scanTokens (toks : List String) : List Char → Option String
  | [] => none
  | c :: rest =>
    match toks.find? (fun t => startsWithL t.toList (c :: rest)) with
    | some t => some t
    | none => scanTokens toks rest

/-- Source `_find_currency`. -/
def findCurrency (text : String) : String × ℚ :=
  match scanTokens CURRENCY_TOKENS text.toList with
  | some t => (t, 0.9)
  | none => ("EUR", 0.6)

/-- Leftmost match of `([0-9]+[.,][0-9]{2})` anchored at the head of `cs`:
the greedy digit run is necessarily maximal (any shorter run is followed by a
digit, which `[.,]` rejects), then a separator and exactly two digits.
Returns the match and the remaining characters. -/
def tryAmountMatch (cs : List Char) : Option (List Char × List Char) :=
  let ds := cs.takeWhile Char.isDigit
  match cs.dropWhile Char.isDigit with
  | c :: d1 :: d2 :: r =>
    if (c == '.' || c == ',') && d1.isDigit && d2.isDigit && !ds.isEmpty then
      some (ds ++ c :: d1 :: d2 :: [], r)
    else none
  | _ => none

/-- Python `re.finditer(AMOUNT_REGEX, line)`: all non-overlapping matches,
left to right.  The fuel is the length of the line; every step consumes at
least one character. -/
def amountScanAux : Nat → List Char → List (List Char)
  | 0, _ => []
  | _ + 1, [] => []
  | fuel + 1, c :: rest =>
    match tryAmountMatch (c :: rest) with
    | some (m, r) => m :: amountScanAux fuel r
    | none => amountScanAux fuel rest

def amountMatchList (cs : List Char) : List (List Char) := amountScanAux cs.length cs

def lastOf {α : Type} : List α → Option α
  | [] => none
  | [a] => some a
  | _ :: b :: rest => lastOf (b :: rest)

/-- Source `_extract_amount_on_lines`, after lowering the keywords and
reversing the lines: scan for a line containing `key` (skipping lines that
contain `avoid`) and return the last amount match on it; a matching line
without an amount match falls through to the next line. -/
def extractAmountOnLinesAux (key : List Char) (avoid : Option (List Char)) : List String → Option String
  | [] => none
  | line :: rest =>
    let low := lowerL line.toList
    if containsSub key low then
      if (match avoid with | some a => containsSub a low | none => false) then
        extractAmountOnLinesAux key avoid rest
      else
        match lastOf (amountMatchList (replaceCommas line.toList)) with
        | some m => some (String.mk m)
        | none => extractAmountOnLinesAux key avoid rest
    else extractAmountOnLinesAux key avoid rest

/-- Source `_extract_amount_on_lines`. -/
def extractAmountOnLines (lines : List String) (keyword : String) (avoidKeyword : Option String) : Option String :=
  extractAmountOnLinesAux (lowerL keyword.toList) (avoidKeyword.map (fun a => lowerL a.toList)) lines.reverse

/-- Source `_extract_all_amounts` (the `try/except` around `float` is the
`filterMap`). -/
def extractAllAmounts (lines : List String) (lastN : Nat) : List Dec :=
  ((lines.drop (lines.length - lastN)).map (fun line =>
    (amountMatchList (replaceCommas line.toList)).filterMap (fun m => parseDec (String.mk m)))).flatten

def listMaxD : List Dec → Option Dec
  | [] => none
  | a :: rest => some (rest.foldl Dec.maxD a)

/-- Tail of `_find_total` after the subtotal/tax reconciliation block: the
plain-total return (0.8, or 0.6 when the total does not parse), then the
max-amount fallback (0.5), then the empty result (0.3). -/
def findTotalTail (total_n : String) (lines : List String) : String × ℚ :=
  if total_n != "" then
    match parseDec total_n with
    | some t => (Dec.format2 t, 0.8)
    | none => (total_n, 0.6)
  else
    match listMaxD (extractAllAmounts lines 30) with
    | some mx => (Dec.format2 mx, 0.5)
    | none => ("", 0.3)

/-- The subtotal/tax reconciliation block of `_find_total`, over the three
normalized amount strings.  The `try/except` around the float conversions is
modelled by falling through to `findTotalTail` when a parse fails. -/
def findTotalReconcile (total_n subtotal_n tax_n : String) (lines : List String) : String × ℚ :=
  if subtotal_n != "" && tax_n != "" then
    match parseDec subtotal_n, parseDec tax_n with
    | some st, some tx =>
      let expected := Dec.addD st tx
      if total_n != "" then
        match parseDec total_n with
        | some t =>
          if Dec.ltB (Dec.ofNat 1) (Dec.absD (Dec.subD t expected)) then (Dec.format2 expected, 0.7)
          else (Dec.format2 t, 0.8)
        | none => findTotalTail total_n lines
      else (Dec.format2 expected, 0.65)
    | _, _ => findTotalTail total_n lines
  else findTotalTail total_n lines

/-- Python `if not x: x = y` on optional extraction results. -/
def orOpt (o1 o2 : Option String) : Option String :=
  match o1 with
  | some t => some t
  | none => o2

/-- Python `_normalize_amount(x) if x else ""`. -/
def normOpt (o : Option String) : String :=
  match o with
  | some s => normalizeAmount s
  | none => ""

/-- Source `_find_total`: the keyword searches and amount normalization,
then the reconciliation block. -/
def findTotal (lines : List String) : String × ℚ :=
  let total0 := extractAmountOnLines lines "total" (some "sub")
  let total1 := orOpt total0 (extractAmountOnLines lines "amount due" none)
  let total := orOpt total1 (extractAmountOnLines lines "balance due" none)
  let subtotal0 := extractAmountOnLines lines "sub total" none
  let subtotal := orOpt subtotal0 (extractAmountOnLines lines "subtotal" none)
  let tax := extractAmountOnLines lines "tax" none
  let total_n := normOpt total
  let subtotal_n := normOpt subtotal
  let tax_n := normOpt tax
  findTotalReconcile total_n subtotal_n tax_n lines

/-- Python `round(x, 2)` on a rational confidence (`round` rounds halves up
here; every value the source rounds is unaffected by the tie rule). -/
def roundTwo (q : ℚ) : ℚ := (round (q * 100) : ℚ) / 100

/-- Source `_find_merchant`. -/
def findMerchant (lines : List String) (words : List OcrWord) : String × ℚ :=
  let candidates := (lines.take 12).filterMap (fun line =>
    let l := cleanLine line
    if l == "" || isNoiseLine l then none
    else
      let digits := l.toList.filter Char.isDigit
      if 6 ≤ digits.length && 8 < l.length then none
      else if l.toList.any (fun c => c.isAlpha) then some l
      else none)
  match candidates with
  | [] =>
    let fallback := match lines with | [] => "" | l0 :: _ => l0
    (fallback, 0.4)
  | m0 :: _ =>
    let merchant := String.mk (stripWS (m0.toList.dropWhile (fun c => !c.isAlpha)))
    let conf := avgConf words ((splitWSStr merchant).take 4)
    (merchant, roundTwo (max 0.4 (min conf 0.95)))

/-- One extracted field, `{"value": ..., "confidence": ...}` (the spec calls
this record `Field`; renamed to avoid the Mathlib class of the same name). -/
structure FieldVal where
  value : String
  confidence : ℚ

structure ParsedReceipt where
  receipt_id : String
  fields : List (String × FieldVal)

/-- Source `parse_receipt_fields`.  The uuid-based receipt id is external
randomness and is taken as a parameter. -/
def parseReceiptFields (receiptId : String) (text : String) (words : List OcrWord) : ParsedReceipt :=
  let raw_lines := (splitLines text).filter (fun l => !(stripWS l.toList).isEmpty)
  let lines := raw_lines.map cleanLine
  let mc := findMerchant lines words
  let dc := findDate text
  let tc := findTotal lines
  let cc := findCurrency text
  ⟨receiptId,
    [("merchant", ⟨mc.1, mc.2⟩),
     ("date", ⟨dc.1, roundTwo dc.2⟩),
     ("total", ⟨tc.1, roundTwo tc.2⟩),
     ("currency", ⟨cc.1, roundTwo cc.2⟩),
     ("category", ⟨"Uncategorized", 0.2⟩)]⟩

/-- One policy finding, `{"field", "severity", "rule_id", "message"}`. -/
structure Issue where
  field : String
  severity : String
  rule_id : String
  message : String
deriving DecidableEq

def mkIssue (field severity rule_id message : String) : Issue :=
  ⟨field, severity, rule_id, message⟩

/-- The fixed rule catalog of `rule_summaries.py`. -/
def RULE_SUMMARIES : List (String × String) :=
  [("POL-REQ-001", "A required expense field (such as merchant, date, total, currency, or category) is missing."),
   ("POL-REQ-002", "A receipt image is required for this type of expense."),
   ("POL-CONF-100", "The extracted value has low confidence and requires user review."),
   ("POL-PARSE-101", "The amount could not be reliably parsed from the receipt text."),
   ("POL-LIM-010", "Meal expenses above the standard limit require justification or attendees."),
   ("POL-LIM-020", "The total expense exceeds the allowed daily limit."),
   ("POL-DATE-030", "The expense date falls outside the allowed submission period."),
   ("POL-JUST-040", "A business purpose is required for reimbursement."),
   ("POL-CAT-050", "The selected category may not match the detected merchant type."),
   ("POL-DUP-060", "This expense may be a duplicate of a previously submitted expense.")]

/-- Python `RULE_SUMMARIES.get(rid)`. -/
def lookupSummary (rid : String) : Option String :=
  (RULE_SUMMARIES.find? (fun p => p.1 == rid)).map (fun p => p.2)

def fallbackSummary : String := "Policy rule triggered. See rule definition repository."

structure RuleSummary where
  rule_id : String
  summary : String
deriving DecidableEq

/-- The summary entry built for one triggered rule id: the catalog text when
present and truthy, the fixed fallback sentence otherwise. -/
def summaryEntry (rid : String) : RuleSummary :=
  match lookupSummary rid with
  | some s => if s == "" then ⟨rid, fallbackSummary⟩ else ⟨rid, s⟩
  | none => ⟨rid, fallbackSummary⟩

/-- Source `attach_rule_summaries`, with the mutable `seen` set threaded
explicitly; a falsy (empty or absent) `rule_id` is skipped, a falsy catalog
entry falls back to the fixed sentence. -/
def attachAux (seen : List String) : List Issue → List RuleSummary
  | [] => []
  | i :: rest =>
    if i.rule_id == "" || seen.contains i.rule_id then attachAux seen rest
    else summaryEntry i.rule_id :: attachAux (i.rule_id :: seen) rest

def attachRuleSummaries (issues : List Issue) : List RuleSummary := attachAux [] issues

def CONF_THRESHOLD : ℚ := 0.75

def REQUIRED_FIELDS : List String := ["merchant", "date", "total", "currency", "category"]

/-- Python `fields.get(f, {})` followed by a key lookup: first binding of the
association list. -/
def getField (fields : List (String × FieldVal)) (f : String) : Option FieldVal :=
  (fields.find? (fun p => p.1 == f)).map (fun p => p.2)

/-- Python `not fields.get(f, {}).get("value")`: the key is absent or its
value is the empty string. -/
def fieldMissing (fields : List (String × FieldVal)) (f : String) : Bool :=
  match getField fields f with
  | none => true
  | some fl => fl.value == ""

/-- Rule 1 of `validate_policy`: required fields (`POL-REQ-001`). -/
def requiredIssues (fields : List (String × FieldVal)) : List Issue :=
  REQUIRED_FIELDS.filterMap (fun f =>
    if fieldMissing fields f then some (mkIssue f "FAIL" "POL-REQ-001" (f ++ " is required.")) else none)

/-- Python `f"{conf:.2f}"` for a rational confidence. -/
def fmtConf2 (q : ℚ) : String :=
  if round (q * 100) < 0 then "-" ++ fmtCents (round (q * 100)).natAbs
  else fmtCents (round (q * 100)).toNat

/-- Rule 2 of `validate_policy`: confidence review (`POL-CONF-100`).  The
`float(v.get("confidence", 0))` conversion always succeeds in this typed
model, so the `except` that maps an unparseable confidence to 0.0 is
invisible here. -/
def confidenceIssues (fields : List (String × FieldVal)) : List Issue :=
  fields.filterMap (fun p =>
    if p.2.confidence < CONF_THRESHOLD then
      some (mkIssue p.1 "WARN" "POL-CONF-100"
        (p.1 ++ " confidence below threshold (" ++ fmtConf2 p.2.confidence ++ ")."))
    else none)

def MEAL_CATEGORIES : List String := ["meals", "meal", "food"]

/-- Python `fields.get("category", {}).get("value", "")`. -/
def categoryValue (fields : List (String × FieldVal)) : String :=
  match getField fields "category" with
  | some fl => fl.value
  | none => ""

/-- The guard of rule 3: lowercased category value in {meals, meal, food}. -/
def mealCond (fields : List (String × FieldVal)) : Bool :=
  MEAL_CATEGORIES.contains (lowerStr (categoryValue fields))

/-- Python `str(fields.get("total", {}).get("value", "0")).replace(",", ".")`. -/
def mealTotalStr (fields : List (String × FieldVal)) : String :=
  let v := match getField fields "total" with
    | some fl => fl.value
    | none => "0"
  String.mk (replaceCommas v.toList)

/-- Rule 3 of `validate_policy`: the meal limit (`POL-LIM-010`) with the
parse-failure fallback (`POL-PARSE-101`).  The field value is an arbitrary
string here, so `float` is modelled in full by `pyFloat`. -/
def mealIssues (fields : List (String × FieldVal)) : List Issue :=
  if mealCond fields then
    match pyFloat (mealTotalStr fields) with
    | some v =>
      if PyFloat.gtNat v 20 then
        [mkIssue "total" "FAIL" "POL-LIM-010" "Meals exceed 20 EUR without justification/attendees."]
      else []
    | none => [mkIssue "total" "WARN" "POL-PARSE-101" "Could not parse total amount reliably."]
  else []

/-- The `ComplianceResult`; the `metadata` dict is inlined as the last two
fields. -/
structure PolicyResult where
  receipt_id : String
  compliance : String
  issues : List Issue
  rule_summaries : List RuleSummary
  confidence_threshold : ℚ
  rules_triggered : List String

/-- Source `validate_policy`; `userContext` is accepted and ignored, as in
the source. -/
def validatePolicy (receiptId : String) (fields : List (String × FieldVal))
    (userContext : List (String × String)) : PolicyResult :=
  let issues := requiredIssues fields ++ confidenceIssues fields ++ mealIssues fields
  let compliance :=
    if issues.any (fun i => i.severity == "FAIL") then "FAIL"
    else if issues.any (fun i => i.severity == "WARN") then "WARN"
    else "PASS"
  let rs := attachRuleSummaries issues
  ⟨receiptId, compliance, issues, rs, CONF_THRESHOLD, rs.map (fun r => r.rule_id)⟩

/-- First-seen-order deduplication (the specification of the `seen` set of
`attach_rule_summaries`). -/
def dedupSeen (seen : List String) : List String → List String
  | [] => []
  | r :: rs => if seen.contains r then dedupSeen seen rs else r :: dedupSeen (r :: seen) rs

def dedupFirstSeen (l : List String) : List String := dedupSeen [] l

theorem mem_of_lastOf {α : Type} : ∀ {l : List α} {a : α}, lastOf l = some a → a ∈ l
  | [], _, h => by simp [lastOf] at h
  | [x], a, h => by
    simp [lastOf] at h
    simp [h]
  | x :: y :: rest, a, h => by
    have hm := mem_of_lastOf (l := y :: rest) (a := a) h
    exact List.mem_cons_of_mem x hm

/-- The FAIL issue of the meal-limit rule. -/
def limIssue : Issue :=
  mkIssue "total" "FAIL" "POL-LIM-010" "Meals exceed 20 EUR without justification/attendees."

/-- The WARN issue of the meal-limit parse fallback. -/
def parseFailIssue : Issue :=
  mkIssue "total" "WARN" "POL-PARSE-101" "Could not parse total amount reliably."

theorem requiredIssues_spec {fields : List (String × FieldVal)} {i : Issue}
    (h : i ∈ requiredIssues fields) : i.severity = "FAIL" ∧ i.rule_id = "POL-REQ-001" := by
  rcases List.mem_filterMap.1 h with ⟨f, _, heq⟩
  split at heq
  · cases heq
    exact ⟨rfl, rfl⟩
  · cases heq

theorem confidenceIssues_spec {fields : List (String × FieldVal)} {i : Issue}
    (h : i ∈ confidenceIssues fields) : i.severity = "WARN" ∧ i.rule_id = "POL-CONF-100" := by
  rcases List.mem_filterMap.1 h with ⟨p, _, heq⟩
  split at heq
  · cases heq
    exact ⟨rfl, rfl⟩
  · cases heq


theorem mealIssues_of_not_cond {fields : List (String × FieldVal)}
    (h : mealCond fields = false) : mealIssues fields = [] := by
  simp [mealIssues, h]

theorem mealIssues_of_gt {fields : List (String × FieldVal)} {v : PyFloat}
    (h : mealCond fields = true) (ht : pyFloat (mealTotalStr fields) = some v)
    (hgt : PyFloat.gtNat v 20 = true) : mealIssues fields = [limIssue] := by
  simp [mealIssues, h, ht, hgt, limIssue]

theorem mealIssues_of_le {fields : List (String × FieldVal)} {v : PyFloat}
    (h : mealCond fields = true) (ht : pyFloat (mealTotalStr fields) = some v)
    (hgt : PyFloat.gtNat v 20 = false) : mealIssues fields = [] := by
  simp [mealIssues, h, ht, hgt]

theorem mealIssues_of_parse_fail {fields : List (String × FieldVal)}
    (h : mealCond fields = true) (ht : pyFloat (mealTotalStr fields) = none) :
    mealIssues fields = [parseFailIssue] := by
  simp [mealIssues, h, ht, parseFailIssue]

theorem mealIssues_spec {fields : List (String × FieldVal)} {i : Issue}
    (h : i ∈ mealIssues fields) : i = limIssue ∨ i = parseFailIssue := by
  cases hc : mealCond fields with
  | false =>
    rw [mealIssues_of_not_cond hc] at h
    simp at h
  | true =>
    cases hp : pyFloat (mealTotalStr fields) with
    | none =>
      rw [mealIssues_of_parse_fail hc hp] at h
      simp at h
      exact Or.inr h
    | some t =>
      cases hgt : PyFloat.gtNat t 20 with
      | true =>
        rw [mealIssues_of_gt hc hp hgt] at h
        simp at h
        exact Or.inl h
      | false =>
        rw [mealIssues_of_le hc hp hgt] at h
        simp at h

theorem validatePolicy_issues (r : String) (fields : List (String × FieldVal))
    (u : List (String × String)) :
    (validatePolicy r fields u).issues =
      requiredIssues fields ++ confidenceIssues fields ++ mealIssues fields := rfl

theorem validatePolicy_compliance_FAIL {r : String} {fields : List (String × FieldVal)}
    {u : List (String × String)} {i : Issue}
    (hm : i ∈ (validatePolicy r fields u).issues) (hs : i.severity = "FAIL") :
    (validatePolicy r fields u).compliance = "FAIL" := by
  have hany : ((validatePolicy r fields u).issues).any (fun j => j.severity == "FAIL") = true :=
    List.any_eq_true.2 ⟨i, hm, by rw [hs]; rfl⟩
  show (if (requiredIssues fields ++ confidenceIssues fields ++ mealIssues fields).any
      (fun j => j.severity == "FAIL") then "FAIL"
    else if (requiredIssues fields ++ confidenceIssues fields ++ mealIssues fields).any
      (fun j => j.severity == "WARN") then "WARN" else "PASS") = "FAIL"
  rw [validatePolicy_issues] at hany
  rw [hany]
  rfl

theorem validatePolicy_compliance_ne_PASS {r : String} {fields : List (String × FieldVal)}
    {u : List (String × String)} {i : Issue}
    (hm : i ∈ (validatePolicy r fields u).issues)
    (hs : i.severity = "FAIL" ∨ i.severity = "WARN") :
    (validatePolicy r fields u).compliance ≠ "PASS" := by
  show (if (requiredIssues fields ++ confidenceIssues fields ++ mealIssues fields).any
      (fun j => j.severity == "FAIL") then "FAIL"
    else if (requiredIssues fields ++ confidenceIssues fields ++ mealIssues fields).any
      (fun j => j.severity == "WARN") then "WARN" else "PASS") ≠ "PASS"
  rw [validatePolicy_issues] at hm
  rcases hs with hs | hs
  · have hany : (requiredIssues fields ++ confidenceIssues fields ++ mealIssues fields).any
        (fun j => j.severity == "FAIL") = true := List.any_eq_true.2 ⟨i, hm, by rw [hs]; rfl⟩
    rw [hany, if_pos rfl]
    decide
  · by_cases hf : (requiredIssues fields ++ confidenceIssues fields ++ mealIssues fields).any
        (fun j => j.severity == "FAIL") = true
    · rw [hf, if_pos rfl]
      decide
    · have hany : (requiredIssues fields ++ confidenceIssues fields ++ mealIssues fields).any
          (fun j => j.severity == "WARN") = true := List.any_eq_true.2 ⟨i, hm, by rw [hs]; rfl⟩
      rw [Bool.not_eq_true] at hf
      rw [hf, hany, if_neg (by decide), if_pos rfl]
      decide

/-- C2: for every FieldMap and user context, each of the five required
fields whose value is empty or absent yields the FAIL issue `POL-REQ-001`
naming that field, and the compliance verdict is FAIL. -/
theorem C2_required_field_rule (rid : String) (fields : List (String × FieldVal))
    (ctx : List (String × String)) (f : String)
    (hf : f ∈ REQUIRED_FIELDS) (hmiss : fieldMissing fields f = true) :
    mkIssue f "FAIL" "POL-REQ-001" (f ++ " is required.") ∈ (validatePolicy rid fields ctx).issues ∧
      (validatePolicy rid fields ctx).compliance = "FAIL" := by
  have hreq : mkIssue f "FAIL" "POL-REQ-001" (f ++ " is required.") ∈ requiredIssues fields :=
    List.mem_filterMap.2 ⟨f, hf, by simp [hmiss]⟩
  have hmem : mkIssue f "FAIL" "POL-REQ-001" (f ++ " is required.") ∈ (validatePolicy rid fields ctx).issues := by
    rw [validatePolicy_issues]
    exact List.mem_append_left _ (List.mem_append_left _ hreq)
  exact ⟨hmem, validatePolicy_compliance_FAIL hmem rfl⟩

/-- Witness for C2 at a concrete FieldMap with no total entry. -/
theorem C2_required_field_rule_witness :
    mkIssue "total" "FAIL" "POL-REQ-001" ("total" ++ " is required.") ∈
      (validatePolicy "r1" [("merchant", ⟨"Cafe Rio", 0.9⟩)] []).issues ∧
      (validatePolicy "r1" [("merchant", ⟨"Cafe Rio", 0.9⟩)] []).compliance = "FAIL" :=
  C2_required_field_rule "r1" [("merchant", ⟨"Cafe Rio", 0.9⟩)] [] "total" (by decide) (by decide)

theorem getField_eq_some {fields : List (String × FieldVal)} {f : String} {fl : FieldVal}
    (h : getField fields f = some fl) : ∃ p ∈ fields, p.1 = f ∧ p.2 = fl := by
  unfold getField at h
  rcases Option.map_eq_some'.1 h with ⟨p, hp, hfl⟩
  exact ⟨p, List.mem_of_find?_eq_some hp, by simpa using List.find?_some hp, hfl⟩

theorem validatePolicy_eq_of_no_issues {rid : String} {fields : List (String × FieldVal)}
    {ctx : List (String × String)}
    (h : requiredIssues fields ++ confidenceIssues fields ++ mealIssues fields = []) :
    validatePolicy rid fields ctx = ⟨rid, "PASS", [], [], CONF_THRESHOLD, []⟩ := by
  simp only [validatePolicy]
  rw [h]
  rfl

/-- C5: a FieldMap whose required fields are all present with nonempty
values and confidence at least the 0.75 threshold, and whose category is not
a meal category, passes with no issues, no rule summaries and no triggered
rules. -/
theorem C5_confidence_only_pass (rid : String) (fields : List (String × FieldVal))
    (ctx : List (String × String))
    (hvals : ∀ p ∈ fields, (p : String × FieldVal).2.value ≠ "" ∧ CONF_THRESHOLD ≤ p.2.confidence)
    (hkeys : ∀ f ∈ REQUIRED_FIELDS, (getField fields f).isSome = true)
    (hcat : lowerStr (categoryValue fields) ∉ MEAL_CATEGORIES) :
    (validatePolicy rid fields ctx).compliance = "PASS" ∧
      (validatePolicy rid fields ctx).issues = [] ∧
      (validatePolicy rid fields ctx).rule_summaries = [] ∧
      (validatePolicy rid fields ctx).rules_triggered = [] := by
  have hreq : requiredIssues fields = [] := by
    unfold requiredIssues
    rw [List.filterMap_eq_nil_iff]
    intro f hf
    rcases Option.isSome_iff_exists.1 (hkeys f hf) with ⟨fl, hfl⟩
    rcases getField_eq_some hfl with ⟨p, hp, _, hpfl⟩
    have hval : fl.value ≠ "" := by
      rw [← hpfl]
      exact (hvals p hp).1
    have hmiss : fieldMissing fields f = false := by
      unfold fieldMissing
      rw [hfl]
      exact beq_eq_false_iff_ne.2 hval
    rw [hmiss]
    rfl
  have hconf : confidenceIssues fields = [] := by
    unfold confidenceIssues
    rw [List.filterMap_eq_nil_iff]
    intro p hp
    rw [if_neg (not_lt.2 (hvals p hp).2)]
  have hmealc : mealCond fields = false := by
    unfold mealCond
    simpa using hcat
  have hnil : requiredIssues fields ++ confidenceIssues fields ++ mealIssues fields = [] := by
    rw [hreq, hconf, mealIssues_of_not_cond hmealc]
    rfl
  rw [validatePolicy_eq_of_no_issues hnil]
  exact ⟨rfl, rfl, rfl, rfl⟩

/-- Witness for C5 at a concrete five-field map with threshold confidences. -/
theorem C5_confidence_only_pass_witness :
    (validatePolicy "r2"
        [("merchant", ⟨"Cafe Rio", CONF_THRESHOLD⟩), ("date", ⟨"2024-01-01", CONF_THRESHOLD⟩),
         ("total", ⟨"10.00", CONF_THRESHOLD⟩), ("currency", ⟨"EUR", CONF_THRESHOLD⟩),
         ("category", ⟨"Travel", CONF_THRESHOLD⟩)] []).compliance = "PASS" ∧
      (validatePolicy "r2"
        [("merchant", ⟨"Cafe Rio", CONF_THRESHOLD⟩), ("date", ⟨"2024-01-01", CONF_THRESHOLD⟩),
         ("total", ⟨"10.00", CONF_THRESHOLD⟩), ("currency", ⟨"EUR", CONF_THRESHOLD⟩),
         ("category", ⟨"Travel", CONF_THRESHOLD⟩)] []).issues = [] ∧
      (validatePolicy "r2"
        [("merchant", ⟨"Cafe Rio", CONF_THRESHOLD⟩), ("date", ⟨"2024-01-01", CONF_THRESHOLD⟩),
         ("total", ⟨"10.00", CONF_THRESHOLD⟩), ("currency", ⟨"EUR", CONF_THRESHOLD⟩),
         ("category", ⟨"Travel", CONF_THRESHOLD⟩)] []).rule_summaries = [] ∧
      (validatePolicy "r2"
        [("merchant", ⟨"Cafe Rio", CONF_THRESHOLD⟩), ("date", ⟨"2024-01-01", CONF_THRESHOLD⟩),
         ("total", ⟨"10.00", CONF_THRESHOLD⟩), ("currency", ⟨"EUR", CONF_THRESHOLD⟩),
         ("category", ⟨"Travel", CONF_THRESHOLD⟩)] []).rules_triggered = [] :=
  C5_confidence_only_pass "r2"
    [("merchant", ⟨"Cafe Rio", CONF_THRESHOLD⟩), ("date", ⟨"2024-01-01", CONF_THRESHOLD⟩),
     ("total", ⟨"10.00", CONF_THRESHOLD⟩), ("currency", ⟨"EUR", CONF_THRESHOLD⟩),
     ("category", ⟨"Travel", CONF_THRESHOLD⟩)] []
    (by
      intro p hp
      simp only [List.mem_cons, List.not_mem_nil, or_false] at hp
      rcases hp with h | h | h | h | h <;> subst h <;> exact ⟨by decide, le_refl CONF_THRESHOLD⟩)
    (by decide)
    (by decide)

/-- C6: the meal-limit check fires only for meal categories; over-limit
parseable totals yield the FAIL issue `POL-LIM-010`, unparseable totals
yield the WARN issue `POL-PARSE-101`, and the two issues are mutually
exclusive in one evaluation. -/
theorem C6_meal_limit_rule (rid : String) (fields : List (String × FieldVal))
    (ctx : List (String × String)) :
    (mealCond fields = false →
      ∀ i ∈ (validatePolicy rid fields ctx).issues,
        i.rule_id ≠ "POL-LIM-010" ∧ i.rule_id ≠ "POL-PARSE-101")
    ∧ (mealCond fields = true →
      (∀ v : PyFloat, pyFloat (mealTotalStr fields) = some v →
        (PyFloat.gtNat v 20 = true →
          limIssue ∈ (validatePolicy rid fields ctx).issues ∧
            ∀ i ∈ (validatePolicy rid fields ctx).issues, i.rule_id ≠ "POL-PARSE-101")
        ∧ (PyFloat.gtNat v 20 = false →
          ∀ i ∈ (validatePolicy rid fields ctx).issues,
            i.rule_id ≠ "POL-LIM-010" ∧ i.rule_id ≠ "POL-PARSE-101"))
      ∧ (pyFloat (mealTotalStr fields) = none →
          parseFailIssue ∈ (validatePolicy rid fields ctx).issues ∧
            ∀ i ∈ (validatePolicy rid fields ctx).issues, i.rule_id ≠ "POL-LIM-010"))
    ∧ ¬ ((∃ i ∈ (validatePolicy rid fields ctx).issues, i.rule_id = "POL-LIM-010") ∧
         (∃ j ∈ (validatePolicy rid fields ctx).issues, j.rule_id = "POL-PARSE-101")) := by
  have hsplit : ∀ i ∈ (validatePolicy rid fields ctx).issues,
      i ∈ requiredIssues fields ∨ i ∈ confidenceIssues fields ∨ i ∈ mealIssues fields := by
    intro i hi
    rw [validatePolicy_issues] at hi
    rcases List.mem_append.1 hi with h | h
    · rcases List.mem_append.1 h with h2 | h2
      · exact Or.inl h2
      · exact Or.inr (Or.inl h2)
    · exact Or.inr (Or.inr h)
  have hnotmeal : ∀ i : Issue, i ∈ requiredIssues fields ∨ i ∈ confidenceIssues fields →
      i.rule_id ≠ "POL-LIM-010" ∧ i.rule_id ≠ "POL-PARSE-101" := by
    intro i h
    rcases h with h | h
    · rw [(requiredIssues_spec h).2]
      exact ⟨by decide, by decide⟩
    · rw [(confidenceIssues_spec h).2]
      exact ⟨by decide, by decide⟩
  have hmem_meal : ∀ {i : Issue}, i ∈ mealIssues fields →
      i ∈ (validatePolicy rid fields ctx).issues := by
    intro i h
    rw [validatePolicy_issues]
    exact List.mem_append_right _ h
  refine ⟨?_, ?_, ?_⟩
  · intro hc i hi
    rcases hsplit i hi with h | h | h
    · exact hnotmeal i (Or.inl h)
    · exact hnotmeal i (Or.inr h)
    · rw [mealIssues_of_not_cond hc] at h
      cases h
  · intro hc
    refine ⟨?_, ?_⟩
    · intro v ht
      refine ⟨?_, ?_⟩
      · intro hgt
        have hml := mealIssues_of_gt hc ht hgt
        refine ⟨hmem_meal (by rw [hml]; exact List.mem_singleton_self _), ?_⟩
        intro i hi
        rcases hsplit i hi with h | h | h
        · exact (hnotmeal i (Or.inl h)).2
        · exact (hnotmeal i (Or.inr h)).2
        · rw [hml] at h
          have heq : i = limIssue := by simpa using h
          rw [heq]
          decide
      · intro hgt
        have hml := mealIssues_of_le hc ht hgt
        intro i hi
        rcases hsplit i hi with h | h | h
        · exact hnotmeal i (Or.inl h)
        · exact hnotmeal i (Or.inr h)
        · rw [hml] at h
          cases h
    · intro ht
      have hml := mealIssues_of_parse_fail hc ht
      refine ⟨hmem_meal (by rw [hml]; exact List.mem_singleton_self _), ?_⟩
      intro i hi
      rcases hsplit i hi with h | h | h
      · exact (hnotmeal i (Or.inl h)).1
      · exact (hnotmeal i (Or.inr h)).1
      · rw [hml] at h
        have heq : i = parseFailIssue := by simpa using h
        rw [heq]
        decide
  · rintro ⟨⟨i, hi, hil⟩, ⟨j, hj, hjp⟩⟩
    have hi2 : i ∈ mealIssues fields := by
      rcases hsplit i hi with h | h | h
      · exact absurd hil (hnotmeal i (Or.inl h)).1
      · exact absurd hil (hnotmeal i (Or.inr h)).1
      · exact h
    have hj2 : j ∈ mealIssues fields := by
      rcases hsplit j hj with h | h | h
      · exact absurd hjp (hnotmeal j (Or.inl h)).2
      · exact absurd hjp (hnotmeal j (Or.inr h)).2
      · exact h
    have hieq : i = limIssue := by
      rcases mealIssues_spec hi2 with h | h
      · exact h
      · rw [h] at hil
        exact absurd hil (by decide)
    have hjeq : j = parseFailIssue := by
      rcases mealIssues_spec hj2 with h | h
      · rw [h] at hjp
        exact absurd hjp (by decide)
      · exact h
    cases hc : mealCond fields with
    | false =>
      rw [mealIssues_of_not_cond hc] at hi2
      cases hi2
    | true =>
      cases hp : pyFloat (mealTotalStr fields) with
      | none =>
        rw [mealIssues_of_parse_fail hc hp, hieq] at hi2
        have hbad : limIssue = parseFailIssue := by simpa using hi2
        exact absurd hbad (by decide)
      | some t =>
        cases hgt : PyFloat.gtNat t 20 with
        | true =>
          rw [mealIssues_of_gt hc hp hgt, hjeq] at hj2
          have hbad : parseFailIssue = limIssue := by simpa using hj2
          exact absurd hbad (by decide)
        | false =>
          rw [mealIssues_of_le hc hp hgt] at hi2
          cases hi2

/-- Witness for C6 at a concrete meal FieldMap whose total value carries
surrounding whitespace, as Python `float` accepts. -/
theorem C6_meal_limit_rule_witness :
    limIssue ∈ (validatePolicy "r3"
      [("category", ⟨"Meals", 0.2⟩), ("total", ⟨" 25.50 ", 0.8⟩)] []).issues :=
  ((((C6_meal_limit_rule "r3"
      [("category", ⟨"Meals", 0.2⟩), ("total", ⟨" 25.50 ", 0.8⟩)] []).2.1 (by decide)).1
    (PyFloat.finite ⟨2550, 2⟩) (by decide)).1 (by decide)).1

theorem summaryEntry_rule_id (rid : String) : (summaryEntry rid).rule_id = rid := by
  unfold summaryEntry
  split
  · split <;> rfl
  · rfl

theorem summaryEntry_fallback {rid : String} (h : lookupSummary rid = none) :
    (summaryEntry rid).summary = fallbackSummary := by
  unfold summaryEntry
  rw [h]

theorem attachAux_map_rule_id : ∀ (l : List Issue) (seen : List String),
    (∀ i ∈ l, i.rule_id ≠ "") →
    (attachAux seen l).map (fun r => r.rule_id) = dedupSeen seen (l.map (fun i => i.rule_id))
  | [], seen, _ => rfl
  | i :: rest, seen, h => by
    have hne : (i.rule_id == "") = false :=
      beq_eq_false_iff_ne.2 (h i (List.mem_cons_self i rest))
    have hrest : ∀ j ∈ rest, j.rule_id ≠ "" := fun j hj => h j (List.mem_cons_of_mem i hj)
    show (if i.rule_id == "" || seen.contains i.rule_id then attachAux seen rest
        else summaryEntry i.rule_id :: attachAux (i.rule_id :: seen) rest).map
        (fun r => r.rule_id)
      = dedupSeen seen (i.rule_id :: rest.map (fun j => j.rule_id))
    rw [hne, Bool.false_or]
    cases hc : seen.contains i.rule_id with
    | true =>
      show (attachAux seen rest).map (fun r => r.rule_id)
        = if seen.contains i.rule_id then dedupSeen seen (rest.map (fun j => j.rule_id))
          else i.rule_id :: dedupSeen (i.rule_id :: seen) (rest.map (fun j => j.rule_id))
      rw [hc, if_pos rfl]
      exact attachAux_map_rule_id rest seen hrest
    | false =>
      show (summaryEntry i.rule_id :: attachAux (i.rule_id :: seen) rest).map
          (fun r => r.rule_id)
        = if seen.contains i.rule_id then dedupSeen seen (rest.map (fun j => j.rule_id))
          else i.rule_id :: dedupSeen (i.rule_id :: seen) (rest.map (fun j => j.rule_id))
      rw [hc, if_neg (by simp)]
      show (summaryEntry i.rule_id).rule_id :: (attachAux (i.rule_id :: seen) rest).map (fun r => r.rule_id)
        = i.rule_id :: dedupSeen (i.rule_id :: seen) (rest.map (fun j => j.rule_id))
      rw [summaryEntry_rule_id, attachAux_map_rule_id rest (i.rule_id :: seen) hrest]

theorem attachAux_mem : ∀ (l : List Issue) (seen : List String) (e : RuleSummary),
    e ∈ attachAux seen l → ∃ rid, e = summaryEntry rid
  | [], _, e, h => by cases h
  | i :: rest, seen, e, h => by
    revert h
    show e ∈ (if i.rule_id == "" || seen.contains i.rule_id then attachAux seen rest
        else summaryEntry i.rule_id :: attachAux (i.rule_id :: seen) rest) → ∃ rid, e = summaryEntry rid
    split
    · exact attachAux_mem rest seen e
    · intro h
      rcases List.mem_cons.1 h with h | h
      · exact ⟨i.rule_id, h⟩
      · exact attachAux_mem rest (i.rule_id :: seen) e h

theorem validatePolicy_rule_id_ne_empty {rid : String} {fields : List (String × FieldVal)}
    {ctx : List (String × String)} {i : Issue}
    (hi : i ∈ (validatePolicy rid fields ctx).issues) : i.rule_id ≠ "" := by
  rw [validatePolicy_issues] at hi
  rcases List.mem_append.1 hi with h | h
  · rcases List.mem_append.1 h with h2 | h2
    · rw [(requiredIssues_spec h2).2]
      decide
    · rw [(confidenceIssues_spec h2).2]
      decide
  · rcases mealIssues_spec h with h2 | h2 <;> rw [h2] <;> decide

/-- C7: rule summaries list exactly the distinct rule ids of the issues in
first-seen order, the catalog lookup is total (an unknown rule id gets the
fixed fallback sentence), and `rules_triggered` mirrors the summary order. -/
theorem C7_evidence_assembly :
    (∀ issues : List Issue, (∀ i ∈ issues, i.rule_id ≠ "") →
      (attachRuleSummaries issues).map (fun r => r.rule_id)
          = dedupFirstSeen (issues.map (fun i => i.rule_id))
        ∧ ∀ e ∈ attachRuleSummaries issues,
            lookupSummary e.rule_id = none → e.summary = fallbackSummary)
    ∧ (∀ (rid : String) (fields : List (String × FieldVal)) (ctx : List (String × String)),
      (validatePolicy rid fields ctx).rule_summaries.map (fun r => r.rule_id)
          = dedupFirstSeen ((validatePolicy rid fields ctx).issues.map (fun i => i.rule_id))
        ∧ (validatePolicy rid fields ctx).rules_triggered
          = (validatePolicy rid fields ctx).rule_summaries.map (fun r => r.rule_id)) := by
  have hsum : ∀ issues : List Issue, ∀ e ∈ attachRuleSummaries issues,
      lookupSummary e.rule_id = none → e.summary = fallbackSummary := by
    intro issues e he hnone
    rcases attachAux_mem issues [] e he with ⟨r, hr⟩
    rw [hr] at hnone ⊢
    rw [summaryEntry_rule_id] at hnone
    exact summaryEntry_fallback hnone
  refine ⟨fun issues h => ⟨attachAux_map_rule_id issues [] h, hsum issues⟩, ?_⟩
  intro rid fields ctx
  constructor
  · have h := attachAux_map_rule_id ((validatePolicy rid fields ctx).issues) []
      (fun i hi => validatePolicy_rule_id_ne_empty hi)
    exact h
  · rfl

/-- Witness for C7 at a one-issue list whose rule id is not in the catalog. -/
theorem C7_evidence_assembly_witness :
    (attachRuleSummaries [mkIssue "f" "WARN" "POL-XYZ-999" "m"]).map (fun r => r.rule_id)
      = dedupFirstSeen (([mkIssue "f" "WARN" "POL-XYZ-999" "m"]).map (fun i => i.rule_id)) ∧
    ∀ e ∈ attachRuleSummaries [mkIssue "f" "WARN" "POL-XYZ-999" "m"],
      lookupSummary e.rule_id = none → e.summary = fallbackSummary :=
  C7_evidence_assembly.1 [mkIssue "f" "WARN" "POL-XYZ-999" "m"] (by decide)

/-- C9: the assembled FieldMap always carries the fixed 0.2-confidence
category placeholder, so validating any pipeline-produced FieldMap always
emits the WARN issue `POL-CONF-100` for the category field and the verdict
is never PASS. -/
theorem C9_pipeline_never_autopass (pid text rid : String) (words : List OcrWord)
    (ctx : List (String × String)) :
    (∃ msg : String, mkIssue "category" "WARN" "POL-CONF-100" msg ∈
        (validatePolicy rid (parseReceiptFields pid text words).fields ctx).issues)
    ∧ (validatePolicy rid (parseReceiptFields pid text words).fields ctx).compliance ≠ "PASS" := by
  have hcatmem : ("category", (⟨"Uncategorized", 0.2⟩ : FieldVal)) ∈
      (parseReceiptFields pid text words).fields := by
    simp [parseReceiptFields]
  have hissue : mkIssue "category" "WARN" "POL-CONF-100"
      ("category" ++ " confidence below threshold (" ++ fmtConf2 (0.2 : ℚ) ++ ").") ∈
      confidenceIssues (parseReceiptFields pid text words).fields :=
    List.mem_filterMap.2 ⟨("category", ⟨"Uncategorized", 0.2⟩), hcatmem, by
      rw [if_pos (by norm_num [CONF_THRESHOLD])]⟩
  have hmem : mkIssue "category" "WARN" "POL-CONF-100"
      ("category" ++ " confidence below threshold (" ++ fmtConf2 (0.2 : ℚ) ++ ").") ∈
      (validatePolicy rid (parseReceiptFields pid text words).fields ctx).issues := by
    rw [validatePolicy_issues]
    exact List.mem_append_left _ (List.mem_append_right _ hissue)
  exact ⟨⟨_, hmem⟩, validatePolicy_compliance_ne_PASS hmem (Or.inr rfl)⟩

/-- C8: the confidence estimator returns 0.0 for a phrase with no tokens,
the neutral 0.5 when no OCR word with nonnegative confidence matches a
token case-insensitively, and otherwise the arithmetic mean of the matched
words' confidences. -/
theorem C8_confidence_estimator (words : List OcrWord) (tokens : List String) :
    (tokens = [] → avgConf words tokens = 0)
    ∧ (tokens ≠ [] →
        (∀ w ∈ words, ¬((0 : ℚ) ≤ w.conf ∧
          lowerStr w.text ∈ (tokens.filter (fun t => t != "")).map lowerStr)) →
        avgConf words tokens = 0.5)
    ∧ (tokens ≠ [] → matchedConfs words tokens ≠ [] →
        avgConf words tokens
          = (matchedConfs words tokens).sum / ((matchedConfs words tokens).length : ℚ)) := by
  refine ⟨?_, ?_, ?_⟩
  · intro h
    subst h
    rfl
  · intro htok hno
    have hm : matchedConfs words tokens = [] := by
      unfold matchedConfs
      rw [List.map_eq_nil_iff, List.filter_eq_nil_iff]
      intro w hw
      intro hpred
      rw [Bool.and_eq_true] at hpred
      rcases hpred with ⟨hmem, hconf⟩
      exact hno w hw ⟨of_decide_eq_true hconf, by simpa using hmem⟩
    cases tokens with
    | nil => exact absurd rfl htok
    | cons a as => simp [avgConf, hm]
  · intro htok hne
    cases tokens with
    | nil => exact absurd rfl htok
    | cons a as =>
      cases hmc : matchedConfs words (a :: as) with
      | nil => exact absurd hmc hne
      | cons q qs => simp [avgConf, hmc]

/-- Witness for C8: an empty phrase, an unmatched phrase, and a matched
phrase. -/
theorem C8_confidence_estimator_witness :
    avgConf [] [] = 0 ∧ avgConf [] ["x"] = 0.5 ∧
      avgConf [⟨"A", 0⟩] ["a"]
        = (matchedConfs [⟨"A", 0⟩] ["a"]).sum / ((matchedConfs [⟨"A", 0⟩] ["a"]).length : ℚ) :=
  ⟨(C8_confidence_estimator [] []).1 rfl,
   (C8_confidence_estimator [] ["x"]).2.1 (by decide) (fun w hw => absurd hw (List.not_mem_nil w)),
   (C8_confidence_estimator [⟨"A", 0⟩] ["a"]).2.2 (by decide) (by
      have h0 : ((["a"] : List String).filter (fun t => t != "")).map lowerStr = ["a"] := by decide
      have h1 : lowerStr "A" = "a" := by decide
      have h2 : decide ((0 : ℚ) ≤ (0 : ℚ)) = true := decide_eq_true (le_refl (0 : ℚ))
      have h3 : (["a"] : List String).contains "a" = true := by decide
      have h4 : lowerStr "a" = "a" := by decide
      simp [matchedConfs, h0, h1, h2, h3, h4])⟩

theorem takeDigits_succ_not_digit {n : Nat} {c : Char} {rest : List Char}
    (h : c.isDigit = false) : takeDigits (n + 1) (c :: rest) = none := by
  simp [takeDigits, h]

theorem matchSpacedDateAt_none {c : Char} {rest : List Char} (h : c.isDigit = false) :
    matchSpacedDateAt (c :: rest) = none := by
  unfold matchSpacedDateAt
  have h4 : takeDigits 4 (c :: rest) = none := takeDigits_succ_not_digit h
  rw [h4]

theorem matchDate1At_none {c : Char} {rest : List Char} (h : c.isDigit = false) :
    matchDate1At (c :: rest) = none := by
  unfold matchDate1At
  have h4 : takeDigits 4 (c :: rest) = none := takeDigits_succ_not_digit h
  rw [h4]

theorem matchDate2At_none {c : Char} {rest : List Char} (h : c.isDigit = false) :
    matchDate2At (c :: rest) = none := by
  unfold matchDate2At
  have h2 : takeDigits 2 (c :: rest) = none := takeDigits_succ_not_digit h
  rw [h2]

theorem regexScan_none (f : List Char → Option (List Char))
    (hf : ∀ (c : Char) (rest : List Char), c.isDigit = false → f (c :: rest) = none) :
    ∀ (cs : List Char) (prev : Option Char), (∀ c ∈ cs, c.isDigit = false) →
      regexScan f prev cs = none
  | [], _, _ => rfl
  | c :: rest, prev, h => by
    have hc := h c (List.mem_cons_self c rest)
    have hrest : ∀ x ∈ rest, x.isDigit = false := fun x hx => h x (List.mem_cons_of_mem c hx)
    show (match (if boundaryBefore prev then f (c :: rest) else none) with
      | some m => some m
      | none => regexScan f (some c) rest) = none
    have hnone : (if boundaryBefore prev then f (c :: rest) else none) = none := by
      split
      · exact hf c rest hc
      · rfl
    rw [hnone]
    exact regexScan_none f hf rest (some c) hrest

/-- C4 counterexample: the only date-like substring of `"2013-11-03"` is the
un-spaced `YYYY-MM-DD` date, yet the extractor does not return confidence
0.75 for it (the spaced pattern, tried first, matches with zero spaces and
yields 0.8). -/
theorem C4_date_extraction_cex : findDate "2013-11-03" ≠ ("2013-11-03", 0.75) := by
  intro h
  have h2 := congrArg Prod.snd h
  have h3 : (findDate "2013-11-03").2 = 0.8 := rfl
  rw [h3] at h2
  norm_num at h2

/-- C4 amended: an un-spaced `YYYY[sep]MM[sep]DD` date is matched by the
spaced pattern (whose `\s*` matches zero characters), so it is returned with
confidence 0.8, not 0.75; and a text with no date pattern at all (in
particular no digit) yields the empty value with confidence 0.3. -/
theorem C4_date_extraction_amended :
    findDate "2013-11-03" = ("2013-11-03", 0.8) ∧
    findDate "2013.11.03" = ("2013.11.03", 0.8) ∧
    findDate "2013/11/03" = ("2013/11/03", 0.8) ∧
    ∀ text : String, (∀ c ∈ text.toList, c.isDigit = false) → findDate text = ("", 0.3) := by
  refine ⟨rfl, rfl, rfl, ?_⟩
  intro text h
  have h1 := regexScan_none matchSpacedDateAt (fun _ _ hc => matchSpacedDateAt_none hc)
    text.toList none h
  have h2 := regexScan_none matchDate1At (fun _ _ hc => matchDate1At_none hc)
    text.toList none h
  have h3 := regexScan_none matchDate2At (fun _ _ hc => matchDate2At_none hc)
    text.toList none h
  unfold findDate
  rw [h1, h2, h3]

/-- Witness for the amended C4 at a digit-free text. -/
theorem C4_date_extraction_amended_witness : findDate "no date here" = ("", 0.3) :=
  C4_date_extraction_amended.2.2.2 "no date here" (by decide)

/-- C1 counterexample: on the three reconciliation lines the extractor
returns the value "191.00" (subtotal + tax = 170.00 + 21.00), not the
"191.44" the claim states. -/
theorem C1_total_reconciliation_cex :
    (findTotal ["Sub Total 170.00", "Tax 21.00", "Total 31.44"]).1 ≠ "191.44" := by
  decide

/-- C1 amended: with lines "Sub Total 170.00", "Tax 21.00", "Total 31.44",
the OCR-read total 31.44 is more than 1.0 away from the computed expected
total 170.00 + 21.00 = 191.00, so the extractor returns ("191.00", 0.7). -/
theorem C1_total_reconciliation_amended :
    findTotal ["Sub Total 170.00", "Tax 21.00", "Total 31.44"] = ("191.00", 0.7) := rfl

theorem roundTwo_bounds {q : ℚ} (h0 : 0 ≤ q) (h1 : q ≤ 1) :
    0 ≤ roundTwo q ∧ roundTwo q ≤ 1 := by
  unfold roundTwo
  constructor
  · apply div_nonneg _ (by norm_num)
    have hlt : (q * 100 : ℚ) - 1 / 2 < (round (q * 100) : ℚ) := sub_half_lt_round (q * 100)
    have hq : (-1 : ℚ) < (round (q * 100) : ℚ) := by nlinarith
    have hz : (-1 : ℤ) < round (q * 100) := by exact_mod_cast hq
    have hz2 : (0 : ℤ) ≤ round (q * 100) := by omega
    exact_mod_cast hz2
  · rw [div_le_one (by norm_num)]
    have hle : (round (q * 100) : ℚ) ≤ q * 100 + 1 / 2 := round_le_add_half (q * 100)
    have hq : (round (q * 100) : ℚ) < 101 := by nlinarith
    have hz : round (q * 100) < (101 : ℤ) := by exact_mod_cast hq
    have hz2 : round (q * 100) ≤ (100 : ℤ) := by omega
    exact_mod_cast hz2

theorem findDate_conf (text : String) :
    (findDate text).2 = 0.8 ∨ (findDate text).2 = 0.75 ∨ (findDate text).2 = 0.3 := by
  unfold findDate
  split
  · exact Or.inl rfl
  · split
    · exact Or.inr (Or.inl rfl)
    · split
      · exact Or.inr (Or.inl rfl)
      · exact Or.inr (Or.inr rfl)

theorem findCurrency_conf (text : String) :
    (findCurrency text).2 = 0.9 ∨ (findCurrency text).2 = 0.6 := by
  unfold findCurrency
  split
  · exact Or.inl rfl
  · exact Or.inr rfl

theorem findTotalTail_conf (tn : String) (lines : List String) :
    (findTotalTail tn lines).2 = 0.7 ∨ (findTotalTail tn lines).2 = 0.8 ∨
    (findTotalTail tn lines).2 = 0.65 ∨ (findTotalTail tn lines).2 = 0.6 ∨
    (findTotalTail tn lines).2 = 0.5 ∨ (findTotalTail tn lines).2 = 0.3 := by
  unfold findTotalTail
  split
  · split
    · exact Or.inr (Or.inl rfl)
    · exact Or.inr (Or.inr (Or.inr (Or.inl rfl)))
  · split
    · exact Or.inr (Or.inr (Or.inr (Or.inr (Or.inl rfl))))
    · exact Or.inr (Or.inr (Or.inr (Or.inr (Or.inr rfl))))

theorem findTotalReconcile_conf (tn sn xn : String) (lines : List String) :
    (findTotalReconcile tn sn xn lines).2 = 0.7 ∨ (findTotalReconcile tn sn xn lines).2 = 0.8 ∨
    (findTotalReconcile tn sn xn lines).2 = 0.65 ∨ (findTotalReconcile tn sn xn lines).2 = 0.6 ∨
    (findTotalReconcile tn sn xn lines).2 = 0.5 ∨ (findTotalReconcile tn sn xn lines).2 = 0.3 := by
  simp only [findTotalReconcile]
  repeat' split
  all_goals first
    | exact Or.inl rfl
    | exact Or.inr (Or.inl rfl)
    | exact Or.inr (Or.inr (Or.inl rfl))
    | exact findTotalTail_conf _ _

theorem findTotal_conf (lines : List String) :
    (findTotal lines).2 = 0.7 ∨ (findTotal lines).2 = 0.8 ∨
    (findTotal lines).2 = 0.65 ∨ (findTotal lines).2 = 0.6 ∨
    (findTotal lines).2 = 0.5 ∨ (findTotal lines).2 = 0.3 := by
  simp only [findTotal]
  exact findTotalReconcile_conf _ _ _ _

theorem findMerchant_conf_bounds (lines : List String) (words : List OcrWord) :
    0 ≤ (findMerchant lines words).2 ∧ (findMerchant lines words).2 ≤ 1 := by
  simp only [findMerchant]
  split
  · constructor <;> norm_num
  · apply roundTwo_bounds
    · exact le_trans (by norm_num) (le_max_left _ _)
    · exact max_le (by norm_num) (le_trans (min_le_right _ _) (by norm_num))

/-- C3: the assembled FieldMap has exactly the five canonical keys, in
order, and every confidence lies in the unit interval. -/
theorem C3_fieldmap_invariant (pid text : String) (words : List OcrWord) :
    (parseReceiptFields pid text words).fields.map (fun p => p.1) = REQUIRED_FIELDS ∧
    ∀ p ∈ (parseReceiptFields pid text words).fields,
      0 ≤ p.2.confidence ∧ p.2.confidence ≤ 1 := by
  constructor
  · rfl
  · intro p hp
    simp only [parseReceiptFields, List.mem_cons, List.not_mem_nil, or_false] at hp
    rcases hp with h | h | h | h | h <;> subst h
    · exact findMerchant_conf_bounds _ _
    · rcases findDate_conf text with h | h | h <;>
        · show 0 ≤ roundTwo (findDate text).2 ∧ roundTwo (findDate text).2 ≤ 1
          rw [h]
          exact roundTwo_bounds (by norm_num) (by norm_num)
    · rcases findTotal_conf ((splitLines text).filter
          (fun l => !(stripWS l.toList).isEmpty) |>.map cleanLine) with h | h | h | h | h | h <;>
        · show 0 ≤ roundTwo (findTotal _).2 ∧ roundTwo (findTotal _).2 ≤ 1
          rw [h]
          exact roundTwo_bounds (by norm_num) (by norm_num)
    · rcases findCurrency_conf text with h | h <;>
        · show 0 ≤ roundTwo (findCurrency text).2 ∧ roundTwo (findCurrency text).2 ≤ 1
          rw [h]
          exact roundTwo_bounds (by norm_num) (by norm_num)
    · constructor <;> norm_num

/-- Shape of an amount-regex match with separator `sep`: a nonempty digit
run, the separator, exactly two digits. -/
def AmountShapeSep (sep : Char) (m : List Char) : Prop :=
  ∃ ds d1 d2, m = ds ++ sep :: d1 :: d2 :: [] ∧ ds ≠ [] ∧
    (∀ x ∈ ds, x.isDigit = true) ∧ d1.isDigit = true ∧ d2.isDigit = true

/-- An amount string as the total extractor consumes it: digits, one dot,
then exactly two decimal digits. -/
def AmountShape (m : List Char) : Prop := AmountShapeSep '.' m

theorem beq_eq_false_of_isDigit {x c : Char} (h : x.isDigit = true) (hc : c.isDigit = false) :
    (x == c) = false := by
  cases hb : x == c
  · rfl
  · have hxc := eq_of_beq hb
    subst hxc
    rw [h] at hc
    cases hc

theorem mem_takeWhile {α : Type} {p : α → Bool} :
    ∀ {l : List α} {x : α}, x ∈ l.takeWhile p → p x = true
  | a :: l, x, h => by
    rw [List.takeWhile_cons] at h
    by_cases ha : p a
    · rw [if_pos ha] at h
      rcases List.mem_cons.1 h with h | h
      · subst h
        exact ha
      · exact mem_takeWhile h
    · rw [if_neg ha] at h
      cases h

theorem dropWhile_eq_self_of_false {α : Type} {p : α → Bool} {l : List α}
    (h : ∀ x ∈ l, p x = false) : l.dropWhile p = l := by
  cases l with
  | nil => rfl
  | cons a l =>
    rw [List.dropWhile_cons, h a (List.mem_cons_self a l)]
    simp

theorem tryAmountMatch_spec {cs m r : List Char} (h : tryAmountMatch cs = some (m, r)) :
    (∃ sep, (sep = '.' ∨ sep = ',') ∧ sep ∈ cs ∧ AmountShapeSep sep m) ∧ ∀ x ∈ r, x ∈ cs := by
  have hsub : ∀ x ∈ cs.dropWhile Char.isDigit, x ∈ cs :=
    fun x hx => (List.dropWhile_suffix Char.isDigit).subset hx
  simp only [tryAmountMatch] at h
  split at h
  case h_2 => cases h
  case h_1 c d1 d2 r2 heq =>
    split at h
    case isFalse => cases h
    case isTrue hcond =>
      rw [Option.some_inj] at h
      have hm := congrArg Prod.fst h
      have hr := congrArg Prod.snd h
      dsimp only at hm hr
      subst hm
      subst hr
      rw [Bool.and_eq_true, Bool.and_eq_true, Bool.and_eq_true] at hcond
      rcases hcond with ⟨⟨⟨hsep, h1⟩, h2⟩, hne⟩
      have hne2 : cs.takeWhile Char.isDigit ≠ [] := by
        rw [Bool.not_eq_true'] at hne
        exact List.isEmpty_eq_false.1 hne
      have hsep2 : c = '.' ∨ c = ',' := by
        rw [Bool.or_eq_true] at hsep
        rcases hsep with hs | hs
        · exact Or.inl (eq_of_beq hs)
        · exact Or.inr (eq_of_beq hs)
      have hcin : c ∈ cs := hsub c (by rw [heq]; exact List.mem_cons_self _ _)
      refine ⟨⟨c, hsep2, hcin, cs.takeWhile Char.isDigit, d1, d2, rfl, hne2,
        fun x hx => mem_takeWhile hx, h1, h2⟩, ?_⟩
      intro x hx
      apply hsub
      rw [heq]
      exact List.mem_cons_of_mem _ (List.mem_cons_of_mem _ (List.mem_cons_of_mem _ hx))

theorem amountScanAux_spec : ∀ (fuel : Nat) (cs m : List Char),
    m ∈ amountScanAux fuel cs →
    ∃ sep, (sep = '.' ∨ sep = ',') ∧ sep ∈ cs ∧ AmountShapeSep sep m
  | 0, _, m, h => by cases h
  | _ + 1, [], m, h => by cases h
  | fuel + 1, c :: rest, m, h => by
    revert h
    show m ∈ (match tryAmountMatch (c :: rest) with
      | some (m0, r) => m0 :: amountScanAux fuel r
      | none => amountScanAux fuel rest) → _
    cases htry : tryAmountMatch (c :: rest) with
    | none =>
      intro h
      rcases amountScanAux_spec fuel rest m h with ⟨sep, hs, hmem, hshape⟩
      exact ⟨sep, hs, List.mem_cons_of_mem c hmem, hshape⟩
    | some p =>
      rcases p with ⟨m0, r⟩
      intro h
      rcases List.mem_cons.1 h with h | h
      · subst h
        exact (tryAmountMatch_spec htry).1
      · rcases amountScanAux_spec fuel r m h with ⟨sep, hs, hmem, hshape⟩
        exact ⟨sep, hs, (tryAmountMatch_spec htry).2 sep hmem, hshape⟩

theorem comma_not_mem_replaceCommas (l : List Char) : ',' ∉ replaceCommas l := by
  intro h
  rcases List.mem_map.1 h with ⟨c, _, hc⟩
  by_cases h2 : c = ','
  · subst h2
    simp only [beq_self_eq_true, if_pos rfl] at hc
    exact absurd hc (by decide)
  · rw [if_neg (by simpa using h2)] at hc
    exact h2 hc

theorem amountMatchList_shape {l m : List Char} (h : m ∈ amountMatchList (replaceCommas l)) :
    AmountShape m := by
  rcases amountScanAux_spec _ _ m h with ⟨sep, hs, hmem, hshape⟩
  rcases hs with rfl | rfl
  · exact hshape
  · exact absurd hmem (comma_not_mem_replaceCommas l)

theorem extractAmountOnLinesAux_shape {key : List Char} {avoid : Option (List Char)} :
    ∀ {ls : List String} {s : String},
      extractAmountOnLinesAux key avoid ls = some s → AmountShape s.toList
  | [], _, h => by cases h
  | line :: rest, s, h => by
    simp only [extractAmountOnLinesAux] at h
    split at h
    · split at h
      · exact extractAmountOnLinesAux_shape h
      · split at h
        case h_1 m hlast =>
          rw [Option.some_inj] at h
          subst h
          exact amountMatchList_shape (mem_of_lastOf hlast)
        case h_2 => exact extractAmountOnLinesAux_shape h
    · exact extractAmountOnLinesAux_shape h

theorem extractAmountOnLines_shape {lines : List String} {kw : String} {av : Option String}
    {s : String} (h : extractAmountOnLines lines kw av = some s) : AmountShape s.toList :=
  extractAmountOnLinesAux_shape h

theorem shape_chars {m : List Char} (h : AmountShape m) :
    ∀ x ∈ m, (x.isDigit || x == '.') = true := by
  rcases h with ⟨ds, d1, d2, rfl, _, hds, h1, h2⟩
  intro x hx
  rcases List.mem_append.1 hx with hx | hx
  · rw [hds x hx]
    rfl
  · rcases List.mem_cons.1 hx with rfl | hx
    · simp
    · rcases List.mem_cons.1 hx with rfl | hx
      · rw [h1]
        rfl
      · rcases List.mem_cons.1 hx with rfl | hx
        · rw [h2]
          rfl
        · cases hx

theorem shape_no_space {m : List Char} (h : AmountShape m) :
    ∀ x ∈ m, isSpaceCh x = false := by
  intro x hx
  have hd := shape_chars h x hx
  rw [Bool.or_eq_true] at hd
  unfold isSpaceCh
  rcases hd with hd | hd
  · rw [beq_eq_false_of_isDigit hd (by decide), beq_eq_false_of_isDigit hd (by decide),
      beq_eq_false_of_isDigit hd (by decide), beq_eq_false_of_isDigit hd (by decide),
      beq_eq_false_of_isDigit hd (by decide), beq_eq_false_of_isDigit hd (by decide)]
    rfl
  · have hx2 : x = '.' := eq_of_beq hd
    subst hx2
    decide

theorem shape_no_comma {m : List Char} (h : AmountShape m) :
    ∀ x ∈ m, (x == ',') = false := by
  intro x hx
  have hd := shape_chars h x hx
  rw [Bool.or_eq_true] at hd
  rcases hd with hd | hd
  · exact beq_eq_false_of_isDigit hd (by decide)
  · have hx2 : x = '.' := eq_of_beq hd
    subst hx2
    decide

theorem shape_ne_nil {m : List Char} (h : AmountShape m) : m ≠ [] := by
  rcases h with ⟨ds, d1, d2, rfl, hne, _, _, _⟩
  exact List.append_ne_nil_of_left_ne_nil hne _

theorem stripWS_eq_self {l : List Char} (h : ∀ x ∈ l, isSpaceCh x = false) : stripWS l = l := by
  unfold stripWS dropWS
  rw [dropWhile_eq_self_of_false (fun x hx => h x (List.mem_reverse.1 hx))]
  rw [List.reverse_reverse]
  exact dropWhile_eq_self_of_false h

theorem replaceCommas_eq_self {l : List Char} (h : ∀ x ∈ l, (x == ',') = false) :
    replaceCommas l = l := by
  unfold replaceCommas
  rw [List.map_congr_left (g := id) ?_, List.map_id]
  intro a ha
  rw [h a ha]
  rfl

theorem normalizeAmount_of_shape {m : List Char} (h : AmountShape m) :
    normalizeAmount (String.mk m) = String.mk m := by
  have hne : (String.mk m == "") = false := by
    apply beq_eq_false_iff_ne.2
    intro he
    have : m = [] := congrArg String.data he
    exact shape_ne_nil h this
  unfold normalizeAmount
  rw [hne]
  show String.mk ((replaceCommas (stripWS (String.mk m).toList)).filter
    (fun c => c.isDigit || c == '.')) = String.mk m
  have htl : (String.mk m).toList = m := rfl
  rw [htl, stripWS_eq_self (shape_no_space h), replaceCommas_eq_self (shape_no_comma h),
    List.filter_eq_self.2 (shape_chars h)]

theorem parseDec_cons_digit {c : Char} {rest : List Char} (h : c.isDigit = true) :
    parseDec (String.mk (c :: rest)) = parseUnsignedDec (c :: rest) := by
  unfold parseDec
  have htl : (String.mk (c :: rest)).toList = c :: rest := rfl
  split
  case h_1 r2 heq =>
    rw [htl] at heq
    have hc : c = '-' := (List.cons.injEq _ _ _ _ ▸ heq).1
    subst hc
    cases h
  case h_2 r2 heq =>
    rw [htl] at heq
    have hc : c = '+' := (List.cons.injEq _ _ _ _ ▸ heq).1
    subst hc
    cases h
  case h_3 =>
    rfl

theorem shape_guard {m : List Char} (h : AmountShape m) :
    (m.all (fun c => c.isDigit || c == '.') && m.any Char.isDigit
      && decide (m.countP (fun c => c == '.') ≤ 1)) = true := by
  have hall : m.all (fun c => c.isDigit || c == '.') = true :=
    List.all_eq_true.2 (shape_chars h)
  have hany : m.any Char.isDigit = true := by
    rcases h with ⟨ds, d1, d2, rfl, hne, hds, h1, h2⟩
    cases ds with
    | nil => exact absurd rfl hne
    | cons dh dt =>
      exact List.any_eq_true.2 ⟨dh, List.mem_append_left _ (List.mem_cons_self _ _),
        hds dh (List.mem_cons_self _ _)⟩
  have hcount : m.countP (fun c => c == '.') ≤ 1 := by
    rcases h with ⟨ds, d1, d2, rfl, hne, hds, h1, h2⟩
    rw [List.countP_append]
    have hds0 : ds.countP (fun c => c == '.') = 0 := by
      rw [List.countP_eq_zero]
      intro a ha
      rw [beq_eq_false_of_isDigit (hds a ha) (by decide)]
      exact Bool.false_ne_true
    rw [hds0]
    rw [List.countP_cons, List.countP_cons, List.countP_cons]
    rw [List.countP_nil]
    have hd1 : (d1 == '.') = false := beq_eq_false_of_isDigit h1 (by decide)
    have hd2 : (d2 == '.') = false := beq_eq_false_of_isDigit h2 (by decide)
    rw [hd1, hd2]
    simp
  rw [Bool.and_eq_true, Bool.and_eq_true]
  exact ⟨⟨hall, hany⟩, decide_eq_true hcount⟩

theorem parseUnsignedDec_of_shape {m : List Char} (h : AmountShape m) :
    ∃ d : Dec, parseUnsignedDec m = some d ∧ 0 ≤ d.m := by
  unfold parseUnsignedDec
  rw [if_pos (shape_guard h)]
  exact ⟨_, rfl, Int.natCast_nonneg _⟩

theorem parseDec_of_shape {m : List Char} (h : AmountShape m) :
    ∃ d : Dec, parseDec (String.mk m) = some d ∧ 0 ≤ d.m := by
  have hhead : ∃ c rest, m = c :: rest ∧ c.isDigit = true := by
    rcases h with ⟨ds, d1, d2, rfl, hne, hds, h1, h2⟩
    cases ds with
    | nil => exact absurd rfl hne
    | cons dh dt =>
      exact ⟨dh, dt ++ '.' :: d1 :: d2 :: [], List.cons_append _ _ _,
        hds dh (List.mem_cons_self _ _)⟩
  rcases hhead with ⟨c, rest, rfl, hc⟩
  rw [parseDec_cons_digit hc]
  exact parseUnsignedDec_of_shape h

theorem takeWhile_ne_dot {ds X : List Char} (h : ∀ x ∈ ds, x.isDigit = true) :
    (ds ++ '.' :: X).takeWhile (fun c => c != '.') = ds ∧
    (ds ++ '.' :: X).dropWhile (fun c => c != '.') = '.' :: X := by
  induction ds with
  | nil =>
    rw [List.nil_append]
    constructor
    · rw [List.takeWhile_cons]
      rw [show (('.' : Char) != '.') = false from by decide]
      rfl
    · rw [List.dropWhile_cons]
      rw [show (('.' : Char) != '.') = false from by decide]
      rfl
  | cons d dt ih =>
    have hd : d.isDigit = true := h d (List.mem_cons_self d dt)
    have hdt : ∀ x ∈ dt, x.isDigit = true := fun x hx => h x (List.mem_cons_of_mem d hx)
    have hbd : (d != '.') = true := by
      have hb : (d == '.') = false := beq_eq_false_of_isDigit hd (by decide)
      simp [bne, hb]
    rw [List.cons_append]
    constructor
    · rw [List.takeWhile_cons, if_pos hbd, (ih hdt).1]
    · rw [List.dropWhile_cons, if_pos hbd, (ih hdt).2]

theorem digitPartRest_digits : ∀ {dt r : List Char},
    (∀ x ∈ dt, x.isDigit = true) →
    (∀ c rest, r = c :: rest → c.isDigit = false ∧ c ≠ '_') →
    digitPartRest (dt ++ r) = (dt, r)
  | [], r, _, hr => by
    cases r with
    | nil => rfl
    | cons c rest =>
      rcases hr c rest rfl with ⟨hc, hu⟩
      rw [List.nil_append]
      unfold digitPartRest
      rw [hc]
      simp [hu]
  | d :: dt, r, hdt, hr => by
    have hd : d.isDigit = true := hdt d (List.mem_cons_self d dt)
    have hrec := digitPartRest_digits (fun x hx => hdt x (List.mem_cons_of_mem d hx)) hr
    rw [List.cons_append]
    unfold digitPartRest
    rw [hd, if_pos rfl, hrec]

theorem digitPart_digits {ds r : List Char} (hne : ds ≠ [])
    (hds : ∀ x ∈ ds, x.isDigit = true)
    (hr : ∀ c rest, r = c :: rest → c.isDigit = false ∧ c ≠ '_') :
    digitPart (ds ++ r) = some (ds, r) := by
  cases ds with
  | nil => exact absurd rfl hne
  | cons d dt =>
    have hd : d.isDigit = true := hds d (List.mem_cons_self d dt)
    have hrec := digitPartRest_digits (fun x hx => hds x (List.mem_cons_of_mem d hx)) hr
    rw [List.cons_append]
    show (if d.isDigit then
        let p := digitPartRest (dt ++ r)
        some (d :: p.1, p.2)
      else none) = some (d :: dt, r)
    rw [hd, if_pos rfl, hrec]

theorem pyMantissa_of_shape {ds : List Char} {d1 d2 : Char} (hne : ds ≠ [])
    (hds : ∀ x ∈ ds, x.isDigit = true) (h1 : d1.isDigit = true) (h2 : d2.isDigit = true) :
    pyMantissa (ds ++ '.' :: d1 :: d2 :: []) = some (ds, d1 :: d2 :: [], []) := by
  have hdp1 : digitPart (ds ++ '.' :: d1 :: d2 :: []) = some (ds, '.' :: d1 :: d2 :: []) :=
    digitPart_digits hne hds (by
      intro c rest he
      rw [List.cons.injEq] at he
      rw [← he.1]
      exact ⟨by decide, by decide⟩)
  have hdp2 : digitPart (d1 :: d2 :: []) = some (d1 :: d2 :: [], []) := by
    have := @digitPart_digits (d1 :: d2 :: []) [] (by simp)
      (by
        intro x hx
        rcases List.mem_cons.1 hx with rfl | hx
        · exact h1
        · rcases List.mem_cons.1 hx with rfl | hx
          · exact h2
          · cases hx)
      (fun c rest he => by cases he)
    simpa using this
  unfold pyMantissa
  rw [hdp1]
  show (match digitPart (d1 :: d2 :: []) with
    | some (fp, rest3) => some (ds, fp, rest3)
    | none => some (ds, [], d1 :: d2 :: [])) = some (ds, d1 :: d2 :: [], [])
  rw [hdp2]

theorem pySign_not_sign {c : Char} {rest : List Char} (h1 : c ≠ '-') (h2 : c ≠ '+') :
    pySign (c :: rest) = (false, c :: rest) := by
  simp [pySign, h1, h2]

/-- On the shaped amount strings that the total extractor parses, the full
Python float model agrees with the plain-decimal one. -/
theorem pyFloat_eq_parseDec_of_shape {m : List Char} (h : AmountShape m) :
    pyFloat (String.mk m) = (parseDec (String.mk m)).map PyFloat.finite := by
  obtain ⟨ds, d1, d2, hm, hne, hds, h1, h2⟩ := h
  subst hm
  have hshape : AmountShape (ds ++ '.' :: d1 :: d2 :: []) := ⟨ds, d1, d2, rfl, hne, hds, h1, h2⟩
  obtain ⟨dh, dt, hcons⟩ : ∃ dh dt, ds = dh :: dt := by
    cases ds with
    | nil => exact absurd rfl hne
    | cons dh dt => exact ⟨dh, dt, rfl⟩
  subst hcons
  have hdh : dh.isDigit = true := hds dh (List.mem_cons_self dh dt)
  have hstrip : stripWS ((dh :: dt) ++ '.' :: d1 :: d2 :: []) = (dh :: dt) ++ '.' :: d1 :: d2 :: [] :=
    stripWS_eq_self (shape_no_space hshape)
  have hsign : pySign ((dh :: dt) ++ '.' :: d1 :: d2 :: []) =
      (false, (dh :: dt) ++ '.' :: d1 :: d2 :: []) := by
    rw [List.cons_append]
    rw [pySign_not_sign (by intro he; rw [he] at hdh; exact absurd hdh (by decide))
      (by intro he; rw [he] at hdh; exact absurd hdh (by decide))]
  have hdot : '.' ∈ lowerL ((dh :: dt) ++ '.' :: d1 :: d2 :: []) :=
    List.mem_map.2 ⟨'.', List.mem_append_right _ (List.mem_cons_self _ _), by decide⟩
  have hinf : ¬(lowerL ((dh :: dt) ++ '.' :: d1 :: d2 :: []) = "inf".toList ∨
      lowerL ((dh :: dt) ++ '.' :: d1 :: d2 :: []) = "infinity".toList) := by
    rintro (he | he) <;> rw [he] at hdot <;> exact absurd hdot (by decide)
  have hnan : ¬(lowerL ((dh :: dt) ++ '.' :: d1 :: d2 :: []) = "nan".toList) := by
    intro he
    rw [he] at hdot
    exact absurd hdot (by decide)
  have hmant : pyMantissa ((dh :: dt) ++ '.' :: d1 :: d2 :: []) =
      some (dh :: dt, d1 :: d2 :: [], []) :=
    pyMantissa_of_shape hne hds h1 h2
  have htw := takeWhile_ne_dot (X := d1 :: d2 :: []) hds
  have hlhs : pyFloat (String.mk ((dh :: dt) ++ '.' :: d1 :: d2 :: [])) =
      some (PyFloat.finite (decOfParts false (dh :: dt) (d1 :: d2 :: []) 0)) := by
    simp only [pyFloat]
    rw [show (String.mk ((dh :: dt) ++ '.' :: d1 :: d2 :: [])).toList =
      (dh :: dt) ++ '.' :: d1 :: d2 :: [] from rfl]
    rw [hstrip, hsign]
    simp only []
    rw [if_neg hinf, if_neg hnan, hmant]
    rfl
  have hrhs : parseDec (String.mk ((dh :: dt) ++ '.' :: d1 :: d2 :: [])) =
      some ⟨(digitsToNat ((dh :: dt) ++ d1 :: d2 :: []) : Int), 2⟩ := by
    rw [show String.mk ((dh :: dt) ++ '.' :: d1 :: d2 :: []) =
      String.mk (dh :: (dt ++ '.' :: d1 :: d2 :: [])) from rfl]
    rw [parseDec_cons_digit hdh]
    rw [show (dh :: (dt ++ '.' :: d1 :: d2 :: [])) = (dh :: dt) ++ '.' :: d1 :: d2 :: [] from rfl]
    unfold parseUnsignedDec
    rw [if_pos (shape_guard hshape)]
    rw [htw.1, htw.2]
    rfl
  rw [hlhs, hrhs]
  show some (PyFloat.finite (decOfParts false (dh :: dt) (d1 :: d2 :: []) 0)) =
    some (PyFloat.finite ⟨(digitsToNat ((dh :: dt) ++ d1 :: d2 :: []) : Int), 2⟩)
  have hdec : decOfParts false (dh :: dt) (d1 :: d2 :: []) 0 =
      ⟨(digitsToNat ((dh :: dt) ++ d1 :: d2 :: []) : Int), 2⟩ := by
    simp only [decOfParts]
    rw [if_neg (by norm_num), if_neg (by norm_num)]
    norm_num
    rfl
  rw [hdec]

theorem digitCh_isDigit (n : Nat) : (digitCh n).isDigit = true := by
  unfold digitCh
  split <;> decide

theorem natDigitsAux_digits : ∀ (fuel n : Nat), ∀ x ∈ natDigitsAux fuel n, x.isDigit = true
  | 0, _, x, h => by cases h
  | fuel + 1, n, x, h => by
    rw [natDigitsAux] at h
    split at h
    · rcases List.mem_cons.1 h with rfl | h
      · exact digitCh_isDigit n
      · cases h
    · rcases List.mem_append.1 h with h | h
      · exact natDigitsAux_digits fuel (n / 10) x h
      · rcases List.mem_cons.1 h with rfl | h
        · exact digitCh_isDigit (n % 10)
        · cases h

theorem natDigits_ne_nil (n : Nat) : natDigits n ≠ [] := by
  unfold natDigits natDigitsAux
  split
  · exact List.cons_ne_nil _ _
  · exact List.append_ne_nil_of_right_ne_nil _ (List.cons_ne_nil _ _)

theorem fmtCents_shape (c : Nat) : AmountShape (fmtCents c).toList ∧ fmtCents c ≠ "" := by
  constructor
  · show AmountShape (natDigits (c / 100) ++ '.' :: twoDigits (c % 100))
    exact ⟨natDigits (c / 100), digitCh (c % 100 / 10), digitCh (c % 100 % 10), rfl,
      natDigits_ne_nil _, fun x hx => natDigitsAux_digits _ _ x hx,
      digitCh_isDigit _, digitCh_isDigit _⟩
  · intro he
    have hl : natDigits (c / 100) ++ '.' :: twoDigits (c % 100) = [] := congrArg String.data he
    exact List.append_ne_nil_of_left_ne_nil (natDigits_ne_nil _) _ hl

theorem format2_shape {d : Dec} (h : 0 ≤ d.m) :
    AmountShape (Dec.format2 d).toList ∧ Dec.format2 d ≠ "" := by
  unfold Dec.format2
  rw [if_neg (not_lt.2 h)]
  exact fmtCents_shape _

theorem addD_nonneg {a b : Dec} (ha : 0 ≤ a.m) (hb : 0 ≤ b.m) : 0 ≤ (Dec.addD a b).m := by
  unfold Dec.addD
  exact add_nonneg (mul_nonneg ha (Int.natCast_nonneg _)) (mul_nonneg hb (Int.natCast_nonneg _))

theorem maxD_nonneg {a b : Dec} (ha : 0 ≤ a.m) (hb : 0 ≤ b.m) : 0 ≤ (Dec.maxD a b).m := by
  unfold Dec.maxD
  split
  · exact hb
  · exact ha

theorem foldl_maxD_nonneg : ∀ (l : List Dec) (a : Dec), 0 ≤ a.m → (∀ x ∈ l, 0 ≤ x.m) →
    0 ≤ (l.foldl Dec.maxD a).m
  | [], a, ha, _ => ha
  | b :: l, a, ha, h => by
    rw [List.foldl_cons]
    exact foldl_maxD_nonneg l (Dec.maxD a b) (maxD_nonneg ha (h b (List.mem_cons_self b l)))
      (fun x hx => h x (List.mem_cons_of_mem b hx))

theorem listMaxD_nonneg {l : List Dec} {d : Dec} (h : ∀ x ∈ l, 0 ≤ x.m)
    (hd : listMaxD l = some d) : 0 ≤ d.m := by
  cases l with
  | nil => cases hd
  | cons a l =>
    unfold listMaxD at hd
    rw [Option.some_inj] at hd
    subst hd
    exact foldl_maxD_nonneg l a (h a (List.mem_cons_self a l))
      (fun x hx => h x (List.mem_cons_of_mem a hx))

theorem extractAllAmounts_nonneg {lines : List String} {lastN : Nat} :
    ∀ x ∈ extractAllAmounts lines lastN, 0 ≤ x.m := by
  intro x hx
  unfold extractAllAmounts at hx
  rcases List.mem_flatten.1 hx with ⟨inner, hin, hxin⟩
  rcases List.mem_map.1 hin with ⟨line, _, hline⟩
  subst hline
  rcases List.mem_filterMap.1 hxin with ⟨mtch, hm, hp⟩
  have hshape := amountMatchList_shape hm
  rcases parseDec_of_shape hshape with ⟨d, hpd, hnn⟩
  rw [hpd, Option.some_inj] at hp
  subst hp
  exact hnn

theorem findTotalTail_shape {tn : String} {lines : List String}
    (htn : tn ≠ "" → AmountShape tn.toList) :
    ((findTotalTail tn lines).1 = "" ∧ (findTotalTail tn lines).2 = 0.3) ∨
    (AmountShape (findTotalTail tn lines).1.toList ∧
      ((findTotalTail tn lines).2 = 0.5 ∨ (findTotalTail tn lines).2 = 0.65 ∨
        (findTotalTail tn lines).2 = 0.7 ∨ (findTotalTail tn lines).2 = 0.8)) := by
  unfold findTotalTail
  split
  case isTrue hbne =>
    have hne : tn ≠ "" := by simpa using hbne
    have hshape := htn hne
    have hpd2 : ∃ d : Dec, parseDec tn = some d ∧ 0 ≤ d.m := parseDec_of_shape hshape
    rcases hpd2 with ⟨d, hpd2, hnn⟩
    split
    case h_1 t hpt =>
      right
      have ht : t = d := by
        rw [hpd2, Option.some_inj] at hpt
        exact hpt.symm
      subst ht
      exact ⟨(format2_shape hnn).1, Or.inr (Or.inr (Or.inr rfl))⟩
    case h_2 hpn =>
      rw [hpd2] at hpn
      cases hpn
  case isFalse hbne =>
    split
    case h_1 mx hmx =>
      right
      have hnn : 0 ≤ mx.m := listMaxD_nonneg extractAllAmounts_nonneg hmx
      exact ⟨(format2_shape hnn).1, Or.inl rfl⟩
    case h_2 => exact Or.inl ⟨rfl, rfl⟩

theorem findTotalReconcile_shape {tn sn xn : String} {lines : List String}
    (ht : tn ≠ "" → AmountShape tn.toList)
    (hs : sn ≠ "" → AmountShape sn.toList)
    (hx : xn ≠ "" → AmountShape xn.toList) :
    ((findTotalReconcile tn sn xn lines).1 = "" ∧ (findTotalReconcile tn sn xn lines).2 = 0.3) ∨
    (AmountShape (findTotalReconcile tn sn xn lines).1.toList ∧
      ((findTotalReconcile tn sn xn lines).2 = 0.5 ∨ (findTotalReconcile tn sn xn lines).2 = 0.65 ∨
        (findTotalReconcile tn sn xn lines).2 = 0.7 ∨ (findTotalReconcile tn sn xn lines).2 = 0.8)) := by
  simp only [findTotalReconcile]
  split
  case isFalse => exact findTotalTail_shape ht
  case isTrue hb =>
    rw [Bool.and_eq_true] at hb
    have hsn : sn ≠ "" := by simpa using hb.1
    have hxn : xn ≠ "" := by simpa using hb.2
    rcases parseDec_of_shape (hs hsn) with ⟨ds, hds, hdsnn⟩
    rcases parseDec_of_shape (hx hxn) with ⟨dx, hdx, hdxnn⟩
    have hds2 : parseDec sn = some ds := hds
    have hdx2 : parseDec xn = some dx := hdx
    split
    case h_2 himp =>
      exact (himp ds dx hds2 hdx2).elim
    case h_1 st tx heq1 heq2 =>
      have hst : st = ds := by
        rw [hds2, Option.some_inj] at heq1
        exact heq1.symm
      have htx : tx = dx := by
        rw [hdx2, Option.some_inj] at heq2
        exact heq2.symm
      have hexp : 0 ≤ (Dec.addD st tx).m := addD_nonneg (hst ▸ hdsnn) (htx ▸ hdxnn)
      split
      case isTrue htb =>
        have htn : tn ≠ "" := by simpa using htb
        rcases parseDec_of_shape (ht htn) with ⟨dt, hdt, hdtnn⟩
        have hdt2 : parseDec tn = some dt := hdt
        split
        case h_1 t heq3 =>
          have ht2 : t = dt := by
            rw [hdt2, Option.some_inj] at heq3
            exact heq3.symm
          split
          case isTrue =>
            exact Or.inr ⟨(format2_shape hexp).1, Or.inr (Or.inr (Or.inl rfl))⟩
          case isFalse =>
            exact Or.inr ⟨(format2_shape (ht2 ▸ hdtnn)).1, Or.inr (Or.inr (Or.inr rfl))⟩
        case h_2 heq3 =>
          rw [hdt2] at heq3
          cases heq3
      case isFalse =>
        exact Or.inr ⟨(format2_shape hexp).1, Or.inr (Or.inl rfl)⟩

theorem normOpt_shape {o : Option String}
    (ho : ∀ s, o = some s → AmountShape s.toList) :
    normOpt o ≠ "" → AmountShape (normOpt o).toList := by
  cases o with
  | none => exact fun h => absurd rfl h
  | some s =>
    intro _
    show AmountShape (normalizeAmount s).toList
    have hsh := ho s rfl
    have h2 : normalizeAmount s = s := normalizeAmount_of_shape hsh
    rw [h2]
    exact hsh

theorem orOpt_shape {o1 o2 : Option String}
    (h1 : ∀ s, o1 = some s → AmountShape s.toList)
    (h2 : ∀ s, o2 = some s → AmountShape s.toList) :
    ∀ s, orOpt o1 o2 = some s → AmountShape s.toList := by
  intro s h
  cases o1 with
  | some t =>
    have ht : some t = some s := h
    rw [Option.some_inj] at ht
    exact ht ▸ h1 t rfl
  | none => exact h2 s h

theorem findTotal_shape (lines : List String) :
    ((findTotal lines).1 = "" ∧ (findTotal lines).2 = 0.3) ∨
    (AmountShape (findTotal lines).1.toList ∧
      ((findTotal lines).2 = 0.5 ∨ (findTotal lines).2 = 0.65 ∨
        (findTotal lines).2 = 0.7 ∨ (findTotal lines).2 = 0.8)) := by
  simp only [findTotal]
  exact findTotalReconcile_shape
    (normOpt_shape (orOpt_shape
      (orOpt_shape (fun _ h => extractAmountOnLines_shape h)
        (fun _ h => extractAmountOnLines_shape h))
      (fun _ h => extractAmountOnLines_shape h)))
    (normOpt_shape (orOpt_shape (fun _ h => extractAmountOnLines_shape h)
      (fun _ h => extractAmountOnLines_shape h)))
    (normOpt_shape (fun _ h => extractAmountOnLines_shape h))

/-- C10: every amount string the keyword line search returns is a nonempty
digit run, a dot, and exactly two decimal digits, and always parses after
normalization (so the exception handler and the confidence-0.6 branch of
the total extractor are unreachable); every nonempty extracted total value
has that two-decimal shape with confidence 0.5, 0.65, 0.7 or 0.8. -/
theorem C10_total_parse_safety :
    (∀ (lines : List String) (kw : String) (av : Option String) (s : String),
      extractAmountOnLines lines kw av = some s →
        AmountShape s.toList ∧ ∃ d : Dec, parseDec (normalizeAmount s) = some d)
    ∧ (∀ lines : List String, (findTotal lines).1 ≠ "" →
        AmountShape (findTotal lines).1.toList ∧
          ((findTotal lines).2 = 0.5 ∨ (findTotal lines).2 = 0.65 ∨
            (findTotal lines).2 = 0.7 ∨ (findTotal lines).2 = 0.8)) := by
  constructor
  · intro lines kw av s h
    have hsh := extractAmountOnLines_shape h
    refine ⟨hsh, ?_⟩
    have hn : normalizeAmount s = s := normalizeAmount_of_shape hsh
    rw [hn]
    rcases parseDec_of_shape hsh with ⟨d, hd, _⟩
    exact ⟨d, hd⟩
  · intro lines hne
    rcases findTotal_shape lines with ⟨h1, _⟩ | h
    · exact absurd h1 hne
    · exact h

/-- Witness for C10 at a one-line receipt. -/
theorem C10_total_parse_safety_witness :
    (AmountShape ("45.50" : String).toList ∧
      ∃ d : Dec, parseDec (normalizeAmount "45.50") = some d) ∧
    (AmountShape (findTotal ["TOTAL 45.50"]).1.toList ∧
      ((findTotal ["TOTAL 45.50"]).2 = 0.5 ∨ (findTotal ["TOTAL 45.50"]).2 = 0.65 ∨
        (findTotal ["TOTAL 45.50"]).2 = 0.7 ∨ (findTotal ["TOTAL 45.50"]).2 = 0.8)) :=
  ⟨C10_total_parse_safety.1 ["TOTAL 45.50"] "total" (some "sub") "45.50" (by decide),
   C10_total_parse_safety.2 ["TOTAL 45.50"] (by decide)⟩
